import Mathlib

/-!
Verification of the TrikHub gateway core against its natural-language
specification.  The TypeScript sources are shallowly embedded:

* `Json` models the values produced by `JSON.parse` (numbers restricted to
  integers, which covers every constant the embedded code compares against);
* the worker protocol (`parseMessage`, `isResponse`, `handleLine`,
  `handleWorkerRequest`, the pending-request table of `PythonWorker`) is
  embedded as pure functions over an explicit channel state, with one
  `Effect` value per observable side effect of the source;
* the storage providers (`SqliteStorageContext`, `InMemoryStorageProvider`)
  are embedded as functions over association lists, with `Date.now()`
  passed explicitly as a `now : Nat` argument (one tick per operation);
  a stored value is represented by its JSON text, so `JSON.stringify` is
  the identity, `Buffer.byteLength(s, 'utf-8')` is `String.utf8ByteSize`
  and SQLite's `LENGTH` (characters) is `String.length`;
* the manifest validator (`validateManifest` compiled from `manifestSchema`
  by Ajv) and the security walker (`findUnconstrainedStrings`) are embedded
  as recursive functions over `Json` and a schema tree `JSchema`.
-/

namespace Trikhub

/-- Model of a parsed JSON value (`JSON.parse` output); numbers are
restricted to integers, which is enough for every constant the embedded
code inspects. Objects are association lists in insertion order. -/
inductive Json where
  | null : Json
  | bool : Bool → Json
  | num : Int → Json
  | str : String → Json
  | arr : List Json → Json
  | obj : List (String × Json) → Json

namespace Json

/-- Property lookup `o[k]` on a parsed value: only objects have
properties; everything else yields `undefined` (`none`). -/
def getProp (j : Json) (k : String) : Option Json :=
  match j with
  | .obj fields => fields.lookup k
  | _ => none

/-- The JavaScript `k in o` test on a parsed value. -/
def hasProp (j : Json) (k : String) : Bool :=
  match j with
  | .obj fields => fields.any (fun p => p.1 == k)
  | _ => false

/-- Whether `typeof parsed === 'object'` holds for a `JSON.parse` result:
true for objects, arrays and `null`. -/
def typeofIsObject (j : Json) : Bool :=
  match j with
  | .obj _ => true
  | .arr _ => true
  | .null => true
  | _ => false

/-- JavaScript truthiness of a parsed JSON value (`null`, `false`, `0`
and the empty string are falsy; every array and object is truthy). -/
def jsTruthy (j : Json) : Bool :=
  match j with
  | .null => false
  | .bool b => b
  | .num n => n != 0
  | .str s => s != ""
  | .arr _ => true
  | .obj _ => true

end Json

/-! ## Worker protocol (`worker-protocol.ts`) -/

/-- One line read from the worker's stdout: blank (whitespace only, skipped
by `handleLine`), not valid JSON (`JSON.parse` throws), or a parsed value. -/
inductive RawLine where
  | blank : RawLine
  | notJson : RawLine
  | json : Json → RawLine

/-- Result of `parseMessage`: the thrown error is abstracted to a tag. -/
inductive ParseErr where
  | invalidJson
  | notAnObject
  | badVersion
  | badId
deriving DecidableEq, Repr

/-- Whether a property value is the given string literal (the strict
equality test `o.k === "lit"` after a property access). -/
def propIsStr (j : Json) (k lit : String) : Bool :=
  match j.getProp k with
  | some (.str s) => s == lit
  | _ => false

/-- Whether `typeof o.k === 'string'` holds. -/
def propIsStringTyped (j : Json) (k : String) : Bool :=
  match j.getProp k with
  | some (.str _) => true
  | _ => false

/-- Embedding of `parseMessage` (worker-protocol.ts:230): JSON-parse the
line, require `typeof parsed === 'object' && parsed !== null`, require
`parsed.jsonrpc === '2.0'`, require `typeof parsed.id === 'string'`, and
return the parsed value unchanged.  No other field is inspected. -/
def parseMessage (l : RawLine) : Except ParseErr Json :=
  match l with
  | .blank => .error .invalidJson
  | .notJson => .error .invalidJson
  | .json j =>
    if !(j.typeofIsObject && !(match j with | .null => true | _ => false)) then
      .error .notAnObject
    else if !(propIsStr j "jsonrpc" "2.0") then .error .badVersion
    else if !(propIsStringTyped j "id") then .error .badId
    else .ok j

/-- Embedding of `isRequest` (worker-protocol.ts:254): `'method' in message`. -/
def isRequest (j : Json) : Bool := j.hasProp "method"

/-- Embedding of `isResponse` (worker-protocol.ts:260):
`'result' in message || 'error' in message`. -/
def isResponse (j : Json) : Bool := j.hasProp "result" || j.hasProp "error"

/-- JavaScript `s.startsWith(p)` as a character-list prefix test (same
semantics as `String.startsWith`, but computable by the kernel). -/
def strStartsWith (s p : String) : Bool := p.data.isPrefixOf s.data

/-- Embedding of `createErrorResponse` (worker-protocol.ts:213) with no
`data` argument (`JSON.stringify` drops the `undefined` field). -/
def createErrorResponse (id : String) (code : Int) (message : String) : Json :=
  .obj [("jsonrpc", .str "2.0"), ("id", .str id),
        ("error", .obj [("code", .num code), ("message", .str message)])]

/-- The `STORAGE_ERROR` member of `WorkerErrorCodes` (worker-protocol.ts:162). -/
def WorkerErrorCodes.STORAGE_ERROR : Int := 1006

/-! ## Worker channel state machine (`python-worker.ts`)

The `PythonWorker` keeps a `pendingRequests : Map<string, PendingRequest>`
keyed by request id.  We model the table as the list of pending ids in
insertion order (the resolve/reject callbacks and timers become explicit
`Effect`s; `clearTimeout` is implicit in removing the entry). -/

/-- Observable effects of the channel handlers: settling a pending
request's promise, emitting an event, writing a line to the worker, or
the uncaught `TypeError` thrown when `handleWorkerRequest` reads
`.startsWith` off a missing or non-string `method`. -/
inductive Effect where
  | resolved : String → Json → Effect
  | rejectedExit : String → Int → Effect
  | rejectedTimeout : String → Nat → Effect
  | parseErrorEvent : ParseErr → Effect
  | storageRequestEvent : Json → Effect
  | sentLine : Json → Effect
  | methodTypeError : Effect

/-- Embedding of `handleWorkerRequest` (python-worker.ts:291): read
`request.method`; if it starts with `storage.`, emit the
`storage-request` event and answer the request on the channel with the
stub error `STORAGE_ERROR` / `Storage proxy not yet implemented`; any
other method is silently ignored.  The per-trik storage handle is never
consulted.  Reading `.startsWith` off an absent or non-string `method`
throws a `TypeError`. -/
def handleWorkerRequest (request : Json) : List Effect :=
  match request.getProp "method" with
  | some (.str m) =>
    if strStartsWith m "storage." then
      let id := match request.getProp "id" with
        | some (.str s) => s
        | _ => ""
      [.storageRequestEvent request,
       .sentLine (createErrorResponse id WorkerErrorCodes.STORAGE_ERROR
          "Storage proxy not yet implemented")]
    else []
  | _ => [.methodTypeError]

/-- Embedding of `handleLine` (python-worker.ts:262) acting on the pending
table: blank lines are skipped; a line `parseMessage` rejects leaves the
table unchanged and emits the `parse-error` event; a response for a
pending id removes it and resolves it (an unknown id is dropped); any
other message goes to `handleWorkerRequest`. -/
def handleLine (pending : List String) (l : RawLine) :
    List String × List Effect :=
  match l with
  | .blank => (pending, [])
  | _ =>
    match parseMessage l with
    | .error e => (pending, [.parseErrorEvent e])
    | .ok message =>
      if isResponse message then
        let id := match message.getProp "id" with
          | some (.str s) => s
          | _ => ""
        if pending.contains id then
          (pending.erase id, [.resolved id message])
        else
          (pending, [])
      else
        (pending, handleWorkerRequest message)

/-- Embedding of the body of `sendRequest` (python-worker.ts:311) after
stdin was found writable and the write succeeded: the id is inserted in
the pending table (write failure removes it again and rejects, leaving
the table unchanged — not modelled further since no claim depends on it). -/
def sendRequest (pending : List String) (id : String) : List String :=
  pending ++ [id]

/-- Embedding of the per-request timeout callback (python-worker.ts:321):
delete the id from the pending table and reject the promise with the
timed-out error. -/
def onTimeout (pending : List String) (id : String) (timeoutMs : Nat) :
    List String × List Effect :=
  (pending.erase id, [.rejectedTimeout id timeoutMs])

/-- Embedding of the `exit` handler (python-worker.ts:127): for every
entry of the pending table, clear its timer, reject its promise with the
worker-exited error, and delete the entry. -/
def onWorkerExit (pending : List String) (code : Int) :
    List String × List Effect :=
  ([], pending.map (fun id => .rejectedExit id code))

/-- Events that can reach the channel: an outgoing request being sent, an
inbound stdout line, a request timer firing, or the subprocess exiting. -/
inductive ChannelEv where
  | send : String → ChannelEv
  | line : RawLine → ChannelEv
  | timeout : String → Nat → ChannelEv
  | exitEv : Int → ChannelEv

/-- One step of the channel: dispatch an event to the matching handler. -/
def channelStep (pending : List String) (ev : ChannelEv) :
    List String × List Effect :=
  match ev with
  | .send id => (sendRequest pending id, [])
  | .line l => handleLine pending l
  | .timeout id ms => onTimeout pending id ms
  | .exitEv code => onWorkerExit pending code

/-- Run a sequence of channel events, accumulating all effects. -/
def channelRun (pending : List String) : List ChannelEv → List String × List Effect
  | [] => (pending, [])
  | ev :: evs =>
    let (p, effs) := channelStep pending ev
    let (p', effs') := channelRun p evs
    (p', effs ++ effs')

/-! ## Storage providers (`python-worker.ts`, storage part)

A stored value is represented by its JSON text (so `JSON.stringify` is the
identity and `JSON.parse (JSON.stringify v) = v` holds by construction).
`Date.now()` is passed explicitly as `now : Nat`, one tick per operation.
Both per-trik states are association lists in insertion order; a JS `Map`
and an `INSERT OR REPLACE` both update an existing key in place, which
`upsert` models. -/

/-- A row of the `storage` table, restricted to one `trik_id`
(`value TEXT`, `created_at INTEGER`, `expires_at INTEGER` nullable). -/
structure SqlRow where
  value : String
  createdAt : Nat
  expiresAt : Option Nat
deriving DecidableEq, Repr

/-- An entry of the in-memory `Map` (`StorageEntry`, python-worker.ts:425);
`expiresAt` is absent when no positive TTL was given. -/
structure MemEntry where
  value : String
  createdAt : Nat
  expiresAt : Option Nat
deriving DecidableEq, Repr

/-- Update an existing key in place, or append a new one (the behaviour
of both `Map.set` and SQLite `INSERT OR REPLACE` on a primary key; both
backing stores keep keys unique). -/
def upsert {α : Type} : List (String × α) → String → α → List (String × α)
  | [], k, v => [(k, v)]
  | (k', v') :: rest, k, v =>
    if k' == k then (k, v) :: rest else (k', v') :: upsert rest k v

/-- Remove a key from an association list (`Map.delete` / SQL `DELETE`). -/
def eraseKey {α : Type} (tbl : List (String × α)) (k : String) :
    List (String × α) :=
  tbl.filter (fun p => p.1 != k)

/-- Keys of an association list are pairwise distinct (both backing
stores — a SQL primary key and a JS `Map` — guarantee this). -/
def nodupKeys {α : Type} (tbl : List (String × α)) : Prop :=
  (tbl.map Prod.fst).Nodup

/-- Whether an `expires_at` value is strictly in the past
(`expires_at IS NOT NULL AND expires_at < now`). -/
def rowExpired (now : Nat) (expiresAt : Option Nat) : Bool :=
  match expiresAt with
  | some e => e < now
  | none => false

/-- Embedding of `cleanupStmt.run(trikId, Date.now())`
(python-worker.ts:457): delete every row of the trik whose `expires_at`
is non-null and `< now`. -/
def sqlCleanup (now : Nat) (tbl : List (String × SqlRow)) :
    List (String × SqlRow) :=
  tbl.filter (fun p => !(rowExpired now p.2.expiresAt))

/-- Embedding of `SqliteStorageContext.get` (python-worker.ts:466):
sweep expired rows, look the key up, double-check expiry (lazily deleting
the row), and return the stored JSON text (the caller's `JSON.parse` is
the identity in this representation). -/
def SqliteStorageContext.get (tbl : List (String × SqlRow)) (key : String)
    (now : Nat) : Option String × List (String × SqlRow) :=
  match (sqlCleanup now tbl).lookup key with
  | none => (none, sqlCleanup now tbl)
  | some row =>
    if rowExpired now row.expiresAt then
      (none, eraseKey (sqlCleanup now tbl) key)
    else (some row.value, sqlCleanup now tbl)

/-- The quota error thrown by `set` (python-worker.ts:498), carrying the
numbers interpolated into its message. -/
structure QuotaError where
  usage : Int
  adding : Int
  maxBytes : Int
deriving DecidableEq, Repr

/-- Sum of `LENGTH(value)` over all rows of the trik: SQLite's `LENGTH`
on `TEXT` counts characters, not bytes (python-worker.ts:460). -/
def sqlUsageChars (tbl : List (String × SqlRow)) : Int :=
  (tbl.map (fun p => (p.2.value.length : Int))).sum

/-- Embedding of `SqliteStorageContext.set` (python-worker.ts:487):
`valueSize` and `currentKeySize` are UTF-8 byte lengths
(`Buffer.byteLength`), but the usage total comes from `SUM(LENGTH(value))`
which counts characters; no expired-row sweep happens first.  When
`usage + valueSize > maxSizeBytes` the quota error is thrown, otherwise
the row is upserted with `expires_at = ttl > 0 ? now + ttl : null`. -/
def oldSizeBytes (tbl : List (String × SqlRow)) (key : String) : Int :=
  match tbl.lookup key with
  | some row => row.value.utf8ByteSize
  | none => 0

/-- Expiry computed by both `set`s:
`ttl !== undefined && ttl > 0 ? now + ttl : null`. -/
def expiryOf (ttl : Option Int) (now : Nat) : Option Nat :=
  match ttl with
  | some t => if t > 0 then some (now + t.toNat) else none
  | none => none

def SqliteStorageContext.set (tbl : List (String × SqlRow)) (key : String)
    (value : String) (ttl : Option Int) (now : Nat) (maxSizeBytes : Int) :
    Except QuotaError (List (String × SqlRow)) :=
  if sqlUsageChars tbl - oldSizeBytes tbl key + (value.utf8ByteSize : Int)
      > maxSizeBytes then
    .error ⟨sqlUsageChars tbl - oldSizeBytes tbl key,
      (value.utf8ByteSize : Int), maxSizeBytes⟩
  else
    .ok (upsert tbl key ⟨value, now, expiryOf ttl now⟩)

/-- Embedding of `SqliteStorageContext.delete` (python-worker.ts:510):
run the `DELETE` and report whether a row (expired or not) was removed. -/
def SqliteStorageContext.delete (tbl : List (String × SqlRow))
    (key : String) : Bool × List (String × SqlRow) :=
  (tbl.any (fun p => p.1 == key), eraseKey tbl key)

/-- SQLite `LIKE` with its default behaviour: `%` and `_` are wildcards,
ASCII letters compare case-insensitively, and — because the query carries
no `ESCAPE` clause — a backslash is an ordinary character. -/
def likeMatch : List Char → List Char → Bool
  | [], [] => true
  | [], _ :: _ => false
  | '%' :: ps, [] => likeMatch ps []
  | '%' :: ps, c :: ts => likeMatch ps (c :: ts) || likeMatch ('%' :: ps) ts
  | '_' :: _, [] => false
  | '_' :: ps, _ :: ts => likeMatch ps ts
  | _ :: _, [] => false
  | p :: ps, c :: ts => (p.toLower == c.toLower) && likeMatch ps ts
termination_by ps ts => (ps.length, ts.length)

/-- Embedding of the escape step of `list` (python-worker.ts:522):
`prefix.replace(/[%_]/g, '\\$&')`, i.e. put a backslash before every `%`
and `_`. -/
def escapeLike (s : String) : String :=
  String.mk (s.data.foldr
    (fun c acc => if c = '%' ∨ c = '_' then '\\' :: c :: acc else c :: acc) [])

/-- Embedding of `SqliteStorageContext.list` (python-worker.ts:515):
sweep expired rows, then — for a truthy (non-empty) prefix — filter keys
with `key LIKE escapedPrefix || '%'` (no `ESCAPE` clause), otherwise
return all keys. -/
def SqliteStorageContext.list (tbl : List (String × SqlRow))
    (pfx : Option String) (now : Nat) :
    List String × List (String × SqlRow) :=
  let tbl := sqlCleanup now tbl
  match pfx with
  | some p =>
    if p = "" then (tbl.map Prod.fst, tbl)
    else
      let pat := (escapeLike p ++ "%").data
      (((tbl.map Prod.fst).filter (fun k => likeMatch pat k.data)), tbl)
  | none => (tbl.map Prod.fst, tbl)

/-- Embedding of `SqliteStorageContext.getMany` (python-worker.ts:531):
fold `get` over the keys, inserting non-null results into the result map
in key order. -/
def SqliteStorageContext.getMany (tbl : List (String × SqlRow))
    (keys : List String) (now : Nat) :
    List (String × String) × List (String × SqlRow) :=
  match keys with
  | [] => ([], tbl)
  | k :: ks =>
    match (SqliteStorageContext.get tbl k now).1 with
    | some s =>
      (upsert (SqliteStorageContext.getMany
          (SqliteStorageContext.get tbl k now).2 ks now).1 k s,
       (SqliteStorageContext.getMany
          (SqliteStorageContext.get tbl k now).2 ks now).2)
    | none =>
      SqliteStorageContext.getMany (SqliteStorageContext.get tbl k now).2 ks now

/-- Embedding of `SqliteStorageContext.setMany` (python-worker.ts:544):
fold `set` with no TTL over the entries; a quota error aborts the loop. -/
def SqliteStorageContext.setMany (tbl : List (String × SqlRow))
    (entries : List (String × String)) (now : Nat) (maxSizeBytes : Int) :
    Except QuotaError (List (String × SqlRow)) :=
  match entries with
  | [] => .ok tbl
  | (k, v) :: rest =>
    match SqliteStorageContext.set tbl k v none now maxSizeBytes with
    | .error e => .error e
    | .ok tbl => SqliteStorageContext.setMany tbl rest now maxSizeBytes

/-- Expiry test of the in-memory `get`
(`entry.expiresAt && entry.expiresAt < Date.now()`): note the JS
truthiness test, under which an `expiresAt` of `0` never counts. -/
def memExpired (now : Nat) (expiresAt : Option Nat) : Bool :=
  match expiresAt with
  | some e => e != 0 && e < now
  | none => false

/-- Embedding of the in-memory `get` (python-worker.ts:683): a hit whose
entry is expired is lazily deleted and reported as `null`. -/
def InMemoryStorage.get (tbl : List (String × MemEntry)) (key : String)
    (now : Nat) : Option String × List (String × MemEntry) :=
  match tbl.lookup key with
  | none => (none, tbl)
  | some entry =>
    if memExpired now entry.expiresAt then (none, eraseKey tbl key)
    else (some entry.value, tbl)

/-- Embedding of the in-memory `set` (python-worker.ts:693): no quota of
any kind is checked (the provider ignores its `capabilities` argument);
`expiresAt` is set only for a strictly positive TTL. -/
def InMemoryStorage.set (tbl : List (String × MemEntry)) (key : String)
    (value : String) (ttl : Option Int) (now : Nat) :
    List (String × MemEntry) :=
  upsert tbl key ⟨value, now, expiryOf ttl now⟩

/-- Embedding of the in-memory `delete` (python-worker.ts:704):
`Map.delete` returns whether the key (expired or not) was present. -/
def InMemoryStorage.delete (tbl : List (String × MemEntry)) (key : String) :
    Bool × List (String × MemEntry) :=
  (tbl.any (fun p => p.1 == key), eraseKey tbl key)

/-- Embedding of the in-memory `list` (python-worker.ts:708): all keys,
filtered with `String.startsWith` for a truthy (non-empty) prefix; no
expiry sweep of any kind. -/
def InMemoryStorage.list (tbl : List (String × MemEntry))
    (pfx : Option String) : List String :=
  let keys := tbl.map Prod.fst
  match pfx with
  | some p => if p = "" then keys else keys.filter (fun k => strStartsWith k p)
  | none => keys

/-- Embedding of the in-memory `getMany` (python-worker.ts:716): visible
entries (`!entry.expiresAt || entry.expiresAt >= Date.now()`) are copied
into the result map in key order; nothing is lazily deleted. -/
def InMemoryStorage.getMany (tbl : List (String × MemEntry))
    (keys : List String) (now : Nat) : List (String × String) :=
  match keys with
  | [] => []
  | k :: ks =>
    match tbl.lookup k with
    | some entry =>
      if !(memExpired now entry.expiresAt) then
        upsert (InMemoryStorage.getMany tbl ks now) k entry.value
      else InMemoryStorage.getMany tbl ks now
    | none => InMemoryStorage.getMany tbl ks now

/-- Embedding of the in-memory `setMany` (python-worker.ts:727): plain
`Map.set` of `{value, createdAt}` for every entry — no expiry, no quota. -/
def InMemoryStorage.setMany (tbl : List (String × MemEntry))
    (entries : List (String × String)) (now : Nat) :
    List (String × MemEntry) :=
  match entries with
  | [] => tbl
  | (k, v) :: rest =>
    InMemoryStorage.setMany (upsert tbl k ⟨v, now, none⟩) rest now

/-- The default storage cap, `DEFAULT_MAX_SIZE_BYTES = 100 * 1024 * 1024`
(python-worker.ts:394). -/
def DEFAULT_MAX_SIZE_BYTES : Int := 100 * 1024 * 1024

/-! ## A common operation language for the two storage providers

`list` is kept out of the common language: claim C6 settles its
divergence separately. -/

/-- One storage call as issued by skill code. -/
inductive StorageOp where
  | get : String → StorageOp
  | set : String → String → Option Int → StorageOp
  | delete : String → StorageOp
  | getMany : List String → StorageOp
  | setMany : List (String × String) → StorageOp
deriving DecidableEq, Repr

/-- The observable outcome of one storage call. -/
inductive Obs where
  | val : Option String → Obs
  | okSet : Obs
  | deleted : Bool → Obs
  | many : List (String × String) → Obs
deriving DecidableEq, Repr

instance {ε α : Type} [DecidableEq ε] [DecidableEq α] :
    DecidableEq (Except ε α)
  | .error e, .error e' =>
    if h : e = e' then .isTrue (by rw [h]) else .isFalse (by simp [h])
  | .error _, .ok _ => .isFalse (by simp)
  | .ok _, .error _ => .isFalse (by simp)
  | .ok a, .ok a' =>
    if h : a = a' then .isTrue (by rw [h]) else .isFalse (by simp [h])

/-- One step of the in-memory provider at time `now`. -/
def memStep (m : List (String × MemEntry)) :
    StorageOp → Nat → Obs × List (String × MemEntry)
  | .get k, now =>
    (.val (InMemoryStorage.get m k now).1, (InMemoryStorage.get m k now).2)
  | .set k v ttl, now => (.okSet, InMemoryStorage.set m k v ttl now)
  | .delete k, _ =>
    (.deleted (InMemoryStorage.delete m k).1, (InMemoryStorage.delete m k).2)
  | .getMany ks, now => (.many (InMemoryStorage.getMany m ks now), m)
  | .setMany es, now => (.okSet, InMemoryStorage.setMany m es now)

/-- One step of the SQLite provider at time `now` (quota may abort). -/
def sqlStep (s : List (String × SqlRow)) (maxB : Int) :
    StorageOp → Nat → Except QuotaError (Obs × List (String × SqlRow))
  | .get k, now =>
    .ok (.val (SqliteStorageContext.get s k now).1,
         (SqliteStorageContext.get s k now).2)
  | .set k v ttl, now =>
    match SqliteStorageContext.set s k v ttl now maxB with
    | .error e => .error e
    | .ok s' => .ok (.okSet, s')
  | .delete k, _ =>
    .ok (.deleted (SqliteStorageContext.delete s k).1,
         (SqliteStorageContext.delete s k).2)
  | .getMany ks, now =>
    .ok (.many (SqliteStorageContext.getMany s ks now).1,
         (SqliteStorageContext.getMany s ks now).2)
  | .setMany es, now =>
    match SqliteStorageContext.setMany s es now maxB with
    | .error e => .error e
    | .ok s' => .ok (.okSet, s')

/-- Run a timed operation sequence on the in-memory provider. -/
def runMem (m : List (String × MemEntry)) :
    List (StorageOp × Nat) → List Obs × List (String × MemEntry)
  | [] => ([], m)
  | (op, now) :: rest =>
    ((memStep m op now).1 :: (runMem (memStep m op now).2 rest).1,
     (runMem (memStep m op now).2 rest).2)

/-- Run a timed operation sequence on the SQLite provider. -/
def runSql (s : List (String × SqlRow)) (maxB : Int) :
    List (StorageOp × Nat) →
    Except QuotaError (List Obs × List (String × SqlRow))
  | [] => .ok ([], s)
  | (op, now) :: rest =>
    match sqlStep s maxB op now with
    | .error e => .error e
    | .ok r =>
      match runSql r.2 maxB rest with
      | .error e => .error e
      | .ok rr => .ok (r.1 :: rr.1, rr.2)

/-- Timestamps along the sequence are nondecreasing from `t0` (the
`Date.now()` clock is monotone). -/
def timesMonoB : Nat → List (StorageOp × Nat) → Bool
  | _, [] => true
  | t0, (_, now) :: rest => decide (t0 ≤ now) && timesMonoB now rest

/-- A `delete` is benign at time `now` when the in-memory table holds no
already-expired entry under the key (the two providers disagree on
deleting an entry that expired but was swept only by the SQLite side). -/
def deleteSafeAtB (m : List (String × MemEntry)) : StorageOp → Nat → Bool
  | .delete k, now =>
    match m.lookup k with
    | some e => !(memExpired now e.expiresAt)
    | none => true
  | _, _ => true

/-- Every `delete` along the run is benign. -/
def deleteSafeB (m : List (String × MemEntry)) :
    List (StorageOp × Nat) → Bool
  | [] => true
  | (op, now) :: rest =>
    deleteSafeAtB m op now && deleteSafeB (memStep m op now).2 rest

/-- The live view of a SQLite table at time `t`: value and expiry of the
entry under a key, hiding expired entries. -/
def sqlLive (t : Nat) (tbl : List (String × SqlRow)) (k : String) :
    Option (String × Option Nat) :=
  match tbl.lookup k with
  | some r => if rowExpired t r.expiresAt then none else some (r.value, r.expiresAt)
  | none => none

/-- The live view of an in-memory table at time `t`. -/
def memLive (t : Nat) (tbl : List (String × MemEntry)) (k : String) :
    Option (String × Option Nat) :=
  match tbl.lookup k with
  | some e => if rowExpired t e.expiresAt then none else some (e.value, e.expiresAt)
  | none => none

/-- Every expiry stored in an in-memory table is positive (true of every
entry the provider creates, since `expiresAt = now + ttl` with `ttl > 0`);
rules out the JS-truthiness quirk for `expiresAt = 0`. -/
def PosExp (tbl : List (String × MemEntry)) : Prop :=
  ∀ p ∈ tbl, match p.2.expiresAt with
    | some e => 0 < e
    | none => True

/-- Correspondence between the two providers' states at time `t`: same
live view under every key, the SQLite key set is contained in the
in-memory one (the in-memory provider sweeps more lazily), expiries are
positive, and keys are unique. -/
structure Corr (t : Nat) (s : List (String × SqlRow))
    (m : List (String × MemEntry)) : Prop where
  live : ∀ k, sqlLive t s k = memLive t m k
  dom : ∀ k, (s.lookup k).isSome = true → (m.lookup k).isSome = true
  pos : PosExp m
  ndS : nodupKeys s
  ndM : nodupKeys m

/-! ## Security walker over `agentDataSchema` (validator, part_004) -/

/-- The `type` keyword of a JSON-Schema node: a single type name or an
array of type names. -/
inductive SchemaType where
  | single : String → SchemaType
  | listOf : List String → SchemaType
deriving DecidableEq, Repr

/-- A JSON-Schema tree restricted to the keywords the security walker
reads: `type`, `enum`, `const`, `pattern`, `format`, `properties`,
`items`, `$defs`.  Absent keywords are `none`. -/
inductive JSchema where
  | mk : Option SchemaType → Option (List Json) → Option Json →
      Option String → Option String → Option (List (String × JSchema)) →
      Option JSchema → Option (List (String × JSchema)) → JSchema

def JSchema.type? : JSchema → Option SchemaType
  | .mk t _ _ _ _ _ _ _ => t

def JSchema.enum? : JSchema → Option (List Json)
  | .mk _ e _ _ _ _ _ _ => e

def JSchema.const? : JSchema → Option Json
  | .mk _ _ c _ _ _ _ _ => c

def JSchema.pattern? : JSchema → Option String
  | .mk _ _ _ p _ _ _ _ => p

def JSchema.format? : JSchema → Option String
  | .mk _ _ _ _ f _ _ _ => f

def JSchema.properties : JSchema → Option (List (String × JSchema))
  | .mk _ _ _ _ _ ps _ _ => ps

def JSchema.items : JSchema → Option JSchema
  | .mk _ _ _ _ _ _ i _ => i

def JSchema.defs : JSchema → Option (List (String × JSchema))
  | .mk _ _ _ _ _ _ _ d => d

/-- Embedding of `ALLOWED_STRING_FORMATS` (part_004:215). -/
def ALLOWED_STRING_FORMATS : List String :=
  ["date", "date-time", "time", "email", "uri", "uuid", "id"]

/-- Embedding of `isConstrainedString` (part_004:220).  The source tests
`schema.enum || schema.const || schema.pattern` by JS truthiness: a
present `enum` array of any length (even empty) is truthy, while a
present `const` whose value is falsy (`""`, `0`, `false`, `null`) and a
present empty `pattern` string are not. -/
def isConstrainedString (s : JSchema) : Bool :=
  s.enum?.isSome
  || (match s.const? with | some j => j.jsTruthy | none => false)
  || (match s.pattern? with | some p => p != "" | none => false)
  || (match s.format? with
      | some f => ALLOWED_STRING_FORMATS.contains f
      | none => false)

/-- Path emitted for the current node: `path || 'root'`. -/
def pathOrRoot (path : String) : String :=
  if path = "" then "root" else path

/-- Child path under `properties`: `path ? path + '.' + key : key`. -/
def childPath (path key : String) : String :=
  if path = "" then key else path ++ "." ++ key

mutual

/-- Embedding of `findUnconstrainedStrings` (part_004:230): report the
current node when `schema.type === 'string'` (the exact string, so an
array-valued `type` never matches) and `isConstrainedString` fails, then
recurse into `properties` (path `path.key`), `items` (path `path[]`) and
`$defs` (path `$defs.key`, discarding the current path). -/
def findUnconstrainedStrings : JSchema → String → List String
  | .mk t en co pa fo props itemsF defsF, path =>
    (if (t == some (.single "string"))
        && !(isConstrainedString (.mk t en co pa fo props itemsF defsF)) then
      [pathOrRoot path]
    else [])
    ++ (match props with
        | some ps => fusEntries ps (fun k => childPath path k)
        | none => [])
    ++ (match itemsF with
        | some c => findUnconstrainedStrings c (path ++ "[]")
        | none => [])
    ++ (match defsF with
        | some ds => fusEntries ds (fun k => "$defs." ++ k)
        | none => [])
termination_by s _ => sizeOf s
decreasing_by all_goals simp_wf <;> omega

/-- Recursion of `findUnconstrainedStrings` over the entry list of a
`properties` or `$defs` object, with `mkPath` building each child path. -/
def fusEntries : List (String × JSchema) → (String → String) → List String
  | [], _ => []
  | (k, c) :: rest, mkPath =>
    findUnconstrainedStrings c (mkPath k) ++ fusEntries rest mkPath
termination_by l _ => sizeOf l
decreasing_by all_goals simp_wf <;> omega

end

/-! ## Manifest validation (validator, part_004)

`validateManifest` runs the Ajv-compiled `manifestSchema`; the compiled
checker is embedded directly, one function per subschema, with Ajv's
semantics for the keywords the schema uses (`type`, `const`, `minLength`,
`pattern`, `properties`, `required`, `additionalProperties`,
`minProperties`, `anyOf`, `items`, `minimum`). -/

def Json.isObjTy : Json → Bool
  | .obj _ => true
  | _ => false

def Json.isStrTy : Json → Bool
  | .str _ => true
  | _ => false

def Json.isNumTy : Json → Bool
  | .num _ => true
  | _ => false

/-- Fields of an object value (empty for anything else). -/
def Json.objFields : Json → List (String × Json)
  | .obj fs => fs
  | _ => []

/-- Apply a property subschema: it constrains the value only when the key
is present. -/
def propOk (j : Json) (k : String) (check : Json → Bool) : Bool :=
  match j.getProp k with
  | some v => check v
  | none => true

/-- The `required` keyword: every listed key is present. -/
def requiredOk (j : Json) (ks : List String) : Bool :=
  ks.all (fun k => j.hasProp k)

/-- A string of `minLength` 1 (Ajv counts code points, as `String.length`
does). -/
def strMin1 (j : Json) : Bool :=
  match j with
  | .str s => s.length ≥ 1
  | _ => false

/-- Consume one-or-more leading digits, returning the rest. -/
def eatDigits1 : List Char → Option (List Char)
  | [] => none
  | c :: rest =>
    if c.isDigit then some (rest.dropWhile Char.isDigit) else none

/-- Test of the `version` pattern `^\d+\.\d+\.\d+` (anchored only at the
start, so a suffix after the third group is allowed). -/
def matchesVersionPattern (s : String) : Bool :=
  match eatDigits1 s.data with
  | some ('.' :: r1) =>
    (match eatDigits1 r1 with
     | some ('.' :: r2) => (eatDigits1 r2).isSome
     | _ => false)
  | _ => false

/-- One entry of `responseTemplates`: an object with a required string
`text` (part_004:56). -/
def templateEntryOk (j : Json) : Bool :=
  j.isObjTy && requiredOk j ["text"] && propOk j "text" Json.isStrTy

/-- The `responseTemplates` subschema: an object whose every value (via
`additionalProperties`) is a template entry; no minimum number of entries
is imposed. -/
def responseTemplatesOk (j : Json) : Bool :=
  j.isObjTy && j.objFields.all (fun p => templateEntryOk p.2)

/-- Embedding of `actionSchemaTemplate` (part_004:47): required
`responseMode` (const `template`), `inputSchema`, `agentDataSchema`,
`responseTemplates`; optional `userContentSchema` and `description`. -/
def actionTemplateOk (j : Json) : Bool :=
  j.isObjTy
  && requiredOk j ["responseMode", "inputSchema", "agentDataSchema", "responseTemplates"]
  && propOk j "responseMode" (fun v => v.isStrTy && (match v with | .str s => s == "template" | _ => false))
  && propOk j "inputSchema" Json.isObjTy
  && propOk j "agentDataSchema" Json.isObjTy
  && propOk j "userContentSchema" Json.isObjTy
  && propOk j "responseTemplates" responseTemplatesOk
  && propOk j "description" Json.isStrTy

/-- Embedding of `actionSchemaPassthrough` (part_004:72): required
`responseMode` (const `passthrough`), `inputSchema`, `userContentSchema`;
optional `description`. -/
def actionPassthroughOk (j : Json) : Bool :=
  j.isObjTy
  && requiredOk j ["responseMode", "inputSchema", "userContentSchema"]
  && propOk j "responseMode" (fun v => v.isStrTy && (match v with | .str s => s == "passthrough" | _ => false))
  && propOk j "inputSchema" Json.isObjTy
  && propOk j "userContentSchema" Json.isObjTy
  && propOk j "description" Json.isStrTy

/-- The `capabilities` subschema (part_004:17). -/
def capabilitiesOk (j : Json) : Bool :=
  j.isObjTy && requiredOk j ["tools"]
  && propOk j "tools" (fun v => match v with
      | .arr xs => xs.all Json.isStrTy
      | _ => false)

/-- The `limits` subschema (part_004:24). -/
def limitsOk (j : Json) : Bool :=
  j.isObjTy && requiredOk j ["maxExecutionTimeMs"]
  && propOk j "maxExecutionTimeMs" (fun v => match v with
      | .num n => n ≥ 0
      | _ => false)

/-- The `entry` subschema (part_004:31). -/
def entryOk (j : Json) : Bool :=
  j.isObjTy && requiredOk j ["module", "export"]
  && propOk j "module" strMin1 && propOk j "export" strMin1

/-- The `actions` subschema (part_004:90): an object with at least one
property, every value satisfying one of the two action shapes (`anyOf`). -/
def actionsOk (j : Json) : Bool :=
  j.isObjTy && j.objFields.length ≥ 1
  && j.objFields.all (fun p => actionTemplateOk p.2 || actionPassthroughOk p.2)

/-- Embedding of `validateManifest` (part_004:132): the `valid` flag of
running the Ajv-compiled `manifestSchema` (part_004:86) on the document. -/
def validateManifest (j : Json) : Bool :=
  j.isObjTy
  && requiredOk j ["schemaVersion", "id", "name", "description", "version",
      "actions", "capabilities", "limits", "entry"]
  && propOk j "schemaVersion" (fun v => match v with
      | .num n => n == 1
      | _ => false)
  && propOk j "id" strMin1
  && propOk j "name" strMin1
  && propOk j "description" Json.isStrTy
  && propOk j "version" (fun v => match v with
      | .str s => matchesVersionPattern s
      | _ => false)
  && propOk j "capabilities" capabilitiesOk
  && propOk j "limits" limitsOk
  && propOk j "entry" entryOk
  && propOk j "author" Json.isStrTy
  && propOk j "repository" Json.isStrTy
  && propOk j "license" Json.isStrTy
  && propOk j "actions" actionsOk

/-! ## Specification-side predicates

The following definitions transcribe the specification's words (not the
code); they exist only to be compared against the embedded code. -/

/-- Specification side: the safe-list of formats, `\x7bid, date,
date-time, time, uuid, email, uri/url\x7d` (reading `uri/url` as allowing
both spellings). -/
def specSafeFormats : List String :=
  ["id", "date", "date-time", "time", "uuid", "email", "uri", "url"]

/-- Specification side: a node whose `type` is `"string"` or an array of
types containing `"string"`. -/
def specStringTyped (s : JSchema) : Bool :=
  match s.type? with
  | some (.single t) => t == "string"
  | some (.listOf ts) => ts.contains "string"
  | none => false

/-- Specification side: the node carries a non-empty `enum`, a `const`, a
`pattern`, or a `format` drawn from the safe-list. -/
def specConstrainedString (s : JSchema) : Bool :=
  (match s.enum? with | some l => !l.isEmpty | none => false)
  || s.const?.isSome
  || s.pattern?.isSome
  || (match s.format? with | some f => specSafeFormats.contains f | none => false)

/-- Nodes of a schema reachable by the walk of `findUnconstrainedStrings`,
together with the path string the walk would assign them: the node itself,
a node under `properties` (path `path.key`), the `items` node (path
`path[]`), and a node under `$defs` (path `$defs.key`, which discards the
incoming path). -/
inductive Reach : String → JSchema → String → JSchema → Prop where
  | here (p : String) (s : JSchema) : Reach p s p s
  | viaProp {p q : String} {s t c : JSchema} {ps : List (String × JSchema)}
      {k : String} : s.properties = some ps → (k, c) ∈ ps →
      Reach (childPath p k) c q t → Reach p s q t
  | viaItems {p q : String} {s t c : JSchema} : s.items = some c →
      Reach (p ++ "[]") c q t → Reach p s q t
  | viaDefs {p q : String} {s t c : JSchema} {ds : List (String × JSchema)}
      {k : String} : s.defs = some ds → (k, c) ∈ ds →
      Reach ("$defs." ++ k) c q t → Reach p s q t

/-- Specification side (claim C8): a well-formed protocol message is a
JSON object with `jsonrpc` 2.0 and a string id that is either a request
carrying a `method` or a response carrying exactly one of `result` /
`error`. -/
def specWellFormedMessage (j : Json) : Bool :=
  j.isObjTy && propIsStr j "jsonrpc" "2.0" && propIsStringTyped j "id"
  && (j.hasProp "method" || (j.hasProp "result" ^^ j.hasProp "error"))

/-- Specification side (claim C9): the template shape — `responseMode`
`template` with `inputSchema`, `agentDataSchema`, and a
`responseTemplates` map containing at least one template. -/
def specTemplateShape (a : Json) : Bool :=
  propIsStr a "responseMode" "template"
  && a.hasProp "inputSchema" && a.hasProp "agentDataSchema"
  && (match a.getProp "responseTemplates" with
      | some (.obj entries) => entries.length ≥ 1
      | _ => false)

/-- The template shape as the validator actually enforces it: the
`responseTemplates` object may be empty, but every entry it does carry
is an object with a string `text`. -/
def specTemplateShapeNoMin (a : Json) : Bool :=
  propIsStr a "responseMode" "template"
  && a.hasProp "inputSchema" && a.hasProp "agentDataSchema"
  && (match a.getProp "responseTemplates" with
      | some (.obj entries) =>
        entries.all (fun p => p.2.isObjTy && propIsStringTyped p.2 "text")
      | _ => false)

/-- Specification side (claim C9): the passthrough shape — `responseMode`
`passthrough` with `inputSchema` and `userContentSchema`. -/
def specPassthroughShape (a : Json) : Bool :=
  propIsStr a "responseMode" "passthrough"
  && a.hasProp "inputSchema" && a.hasProp "userContentSchema"

/-- Specification side (claim C4): total UTF-8 byte size of the stored
JSON encodings of a trik's values. -/
def sqlUsageBytes (tbl : List (String × SqlRow)) : Int :=
  (tbl.map (fun p => (p.2.value.utf8ByteSize : Int))).sum

/-- Specification side (claim C4): `set` must fail exactly when
`currentUsageBytes − oldValueBytes + newValueBytes > maxSizeBytes`, all
sizes being UTF-8 byte lengths of the JSON encodings. -/
def specQuotaExceeded (tbl : List (String × SqlRow)) (key value : String)
    (maxSizeBytes : Int) : Prop :=
  sqlUsageBytes tbl -
    (match tbl.lookup key with
     | some row => (row.value.utf8ByteSize : Int)
     | none => 0)
    + (value.utf8ByteSize : Int) > maxSizeBytes

/-- A schema node of type `["string", "null"]` with no constraint. -/
def schemaArrayStringType : JSchema :=
  .mk (some (.listOf ["string", "null"])) none none none none none none none

/-- A string-typed node whose `enum` is present but empty. -/
def schemaEmptyEnum : JSchema :=
  .mk (some (.single "string")) (some []) none none none none none none

/-- A string-typed node constrained only by `format: "url"`. -/
def schemaFormatUrl : JSchema :=
  .mk (some (.single "string")) none none none (some "url") none none none

/-- A template-mode action whose `responseTemplates` object is empty. -/
def actionEmptyTemplates : Json :=
  .obj [("responseMode", .str "template"),
        ("inputSchema", .obj []),
        ("agentDataSchema", .obj []),
        ("responseTemplates", .obj [])]

/-- An otherwise fully valid manifest whose single action carries an
empty `responseTemplates` object. -/
def manifestEmptyTemplates : Json :=
  .obj [("schemaVersion", .num 1),
        ("id", .str "@t/demo"),
        ("name", .str "demo"),
        ("description", .str "a demo"),
        ("version", .str "1.0.0"),
        ("actions", .obj [("search", actionEmptyTemplates)]),
        ("capabilities", .obj [("tools", .arr [])]),
        ("limits", .obj [("maxExecutionTimeMs", .num 5000)]),
        ("entry", .obj [("module", .str "index.js"), ("export", .str "graph")])]

/-! ## Association-list lemmas -/

section AList

variable {α : Type}

theorem lookup_upsert_self (tbl : List (String × α)) (k : String) (v : α) :
    (upsert tbl k v).lookup k = some v := by
  induction tbl with
  | nil => simp [upsert, List.lookup]
  | cons a rest ih =>
    obtain ⟨k', v'⟩ := a
    by_cases h : k' = k
    · simp [upsert, h, List.lookup]
    · simp only [upsert, beq_iff_eq, h, if_false, List.lookup]
      have : (k == k') = false := by
        simp [beq_iff_eq]
        exact fun hc => h hc.symm
      simp [this, ih]

theorem lookup_upsert_ne (tbl : List (String × α)) (k k' : String) (v : α)
    (h : k' ≠ k) : (upsert tbl k v).lookup k' = tbl.lookup k' := by
  induction tbl with
  | nil =>
    have h1 : (k' == k) = false := by simp [beq_iff_eq, h]
    simp [upsert, List.lookup, h1]
  | cons a rest ih =>
    obtain ⟨ka, va⟩ := a
    by_cases hk : ka = k
    · subst hk
      have h1 : (k' == ka) = false := by simp [beq_iff_eq, h]
      simp [upsert, List.lookup, h1]
    · simp only [upsert, beq_iff_eq, hk, if_false, List.lookup]
      by_cases h2 : k' = ka
      · simp [h2]
      · have h3 : (k' == ka) = false := by simp [beq_iff_eq, h2]
        simp [h3, ih]

theorem lookup_eraseKey_self (tbl : List (String × α)) (k : String) :
    (eraseKey tbl k).lookup k = none := by
  induction tbl with
  | nil => simp [eraseKey, List.lookup]
  | cons a rest ih =>
    obtain ⟨ka, va⟩ := a
    by_cases h : ka = k
    · simp [eraseKey, h, List.filter] at ih ⊢
      exact ih
    · have h1 : (ka != k) = true := by simp [bne_iff_ne, h]
      have h2 : (k == ka) = false := by
        simp [beq_iff_eq]
        exact fun hc => h hc.symm
      simp [eraseKey, List.filter, h1, List.lookup, h2] at ih ⊢
      exact ih

theorem lookup_eraseKey_ne (tbl : List (String × α)) (k k' : String)
    (h : k' ≠ k) : (eraseKey tbl k).lookup k' = tbl.lookup k' := by
  induction tbl with
  | nil => simp [eraseKey, List.lookup]
  | cons a rest ih =>
    obtain ⟨ka, va⟩ := a
    by_cases hk : ka = k
    · subst hk
      have h1 : (ka != ka) = false := by simp
      have h2 : (k' == ka) = false := by simp [beq_iff_eq, h]
      simp [eraseKey, List.filter, List.lookup, h2] at ih ⊢
      exact ih
    · have h1 : (ka != k) = true := by simp [bne_iff_ne, hk]
      by_cases h2 : k' = ka
      · subst h2
        simp [eraseKey, List.filter, h1, List.lookup]
      · have h3 : (k' == ka) = false := by simp [beq_iff_eq, h2]
        simp [eraseKey, List.filter, h1, List.lookup, h3] at ih ⊢
        exact ih

theorem lookup_eq_none_of_not_mem_keys (tbl : List (String × α))
    (k : String) (h : k ∉ tbl.map Prod.fst) : tbl.lookup k = none := by
  induction tbl with
  | nil => simp [List.lookup]
  | cons a rest ih =>
    obtain ⟨ka, va⟩ := a
    simp only [List.map_cons, List.mem_cons, not_or] at h
    have h2 : (k == ka) = false := by simp [beq_iff_eq, h.1]
    simp [List.lookup, h2, ih h.2]

theorem lookup_filterVal (q : α → Bool) (tbl : List (String × α))
    (k : String) (h : nodupKeys tbl) :
    (tbl.filter (fun p => q p.2)).lookup k =
      match tbl.lookup k with
      | some r => if q r then some r else none
      | none => none := by
  induction tbl with
  | nil => simp [List.lookup]
  | cons a rest ih =>
    obtain ⟨ka, va⟩ := a
    have hnd : nodupKeys rest := by
      simpa [nodupKeys] using (List.nodup_cons.mp h).2
    have hka : ka ∉ rest.map Prod.fst := by
      simpa [nodupKeys] using (List.nodup_cons.mp h).1
    by_cases hk : k = ka
    · subst hk
      have hnone : rest.lookup k = none :=
        lookup_eq_none_of_not_mem_keys rest k hka
      by_cases hq : q va
      · simp [List.filter, hq, List.lookup]
      · have hq' : q va = false := by simpa using hq
        simp [List.filter, hq', List.lookup, ih hnd, hnone]
    · have hbeq : (k == ka) = false := by simp [beq_iff_eq, hk]
      by_cases hq : q va
      · simp [List.filter, hq, List.lookup, hbeq, ih hnd]
      · have hq' : q va = false := by simpa using hq
        simp [List.filter, hq', List.lookup, hbeq, ih hnd]

theorem any_key_eq_lookup_isSome (tbl : List (String × α)) (k : String) :
    tbl.any (fun p => p.1 == k) = (tbl.lookup k).isSome := by
  induction tbl with
  | nil => simp [List.lookup]
  | cons a rest ih =>
    obtain ⟨ka, va⟩ := a
    by_cases h : ka = k
    · simp [List.any_cons, h, List.lookup]
    · have h1 : (ka == k) = false := by simp [beq_iff_eq, h]
      have h2 : (k == ka) = false := by
        simp [beq_iff_eq]
        exact fun hc => h hc.symm
      simp [List.any_cons, h1, List.lookup, h2, ih]

theorem keys_upsert_subset (tbl : List (String × α)) (k : String) (v : α) :
    ∀ x ∈ (upsert tbl k v).map Prod.fst, x = k ∨ x ∈ tbl.map Prod.fst := by
  induction tbl with
  | nil => simp [upsert]
  | cons a rest ih =>
    obtain ⟨ka, va⟩ := a
    by_cases hb : ka = k
    · subst hb
      simp only [upsert, beq_self_eq_true, if_true, List.map_cons]
      intro x hx
      simpa using hx
    · have hb1 : (ka == k) = false := by simp [beq_iff_eq, hb]
      simp only [upsert, hb1, if_false, List.map_cons]
      intro x hx
      rcases List.mem_cons.mp hx with hx | hx
      · right
        simp [hx]
      · rcases ih x hx with hx' | hx'
        · left
          exact hx'
        · right
          simp [hx']

theorem nodupKeys_upsert (tbl : List (String × α)) (k : String) (v : α)
    (h : nodupKeys tbl) : nodupKeys (upsert tbl k v) := by
  induction tbl with
  | nil => simp [upsert, nodupKeys]
  | cons a rest ih =>
    obtain ⟨ka, va⟩ := a
    have hnd : nodupKeys rest := by
      simpa [nodupKeys] using (List.nodup_cons.mp h).2
    have hka : ka ∉ rest.map Prod.fst := by
      simpa [nodupKeys] using (List.nodup_cons.mp h).1
    by_cases hk : ka = k
    · subst hk
      simp only [upsert, beq_self_eq_true, if_true]
      simpa [nodupKeys] using h
    · have h1 : (ka == k) = false := by simp [beq_iff_eq, hk]
      simp only [upsert, h1, if_false]
      have hmem : ka ∉ (upsert rest k v).map Prod.fst := by
        intro hc
        rcases keys_upsert_subset rest k v ka hc with h' | h'
        · exact hk h'
        · exact hka h'
      simpa [nodupKeys] using And.intro hmem (ih hnd)

theorem nodupKeys_filter (q : String × α → Bool) (tbl : List (String × α))
    (h : nodupKeys tbl) : nodupKeys (tbl.filter q) := by
  have : (tbl.filter q).map Prod.fst |>.Sublist (tbl.map Prod.fst) :=
    (List.filter_sublist tbl).map Prod.fst
  exact this.nodup h

theorem nodupKeys_eraseKey (tbl : List (String × α)) (k : String)
    (h : nodupKeys tbl) : nodupKeys (eraseKey tbl k) :=
  nodupKeys_filter _ tbl h

theorem lookup_mem (tbl : List (String × α)) (k : String) (v : α)
    (h : tbl.lookup k = some v) : (k, v) ∈ tbl := by
  induction tbl with
  | nil => simp [List.lookup] at h
  | cons a rest ih =>
    obtain ⟨ka, va⟩ := a
    by_cases hk : k = ka
    · subst hk
      simp [List.lookup] at h
      simp [h]
    · have hbeq : (k == ka) = false := by simp [beq_iff_eq, hk]
      simp only [List.lookup, hbeq] at h
      exact List.mem_cons_of_mem _ (ih h)

theorem mem_upsert (tbl : List (String × α)) (k : String) (v : α)
    (p : String × α) (h : p ∈ upsert tbl k v) : p = (k, v) ∨ p ∈ tbl := by
  induction tbl with
  | nil => simpa [upsert] using h
  | cons a rest ih =>
    obtain ⟨ka, va⟩ := a
    by_cases hk : ka = k
    · subst hk
      simp only [upsert, beq_self_eq_true, if_true] at h
      rcases List.mem_cons.mp h with h | h
      · exact Or.inl h
      · exact Or.inr (List.mem_cons_of_mem _ h)
    · have hbeq : (ka == k) = false := by simp [beq_iff_eq, hk]
      simp only [upsert, hbeq, if_false] at h
      rcases List.mem_cons.mp h with h | h
      · exact Or.inr (by simp [h])
      · rcases ih h with h | h
        · exact Or.inl h
        · exact Or.inr (List.mem_cons_of_mem _ h)

end AList

/-! ## Claim C2 — storage proxying during an invoke -/

/-- C2 (code bug): an inbound `storage.get` request received from the
worker during an invoke is *not* delegated to the per-trik storage
handle; `handleWorkerRequest` only emits the `storage-request` event and
answers on the channel with the stub error response
`STORAGE_ERROR` / `Storage proxy not yet implemented`. -/
theorem storage_request_answered_with_stub_error :
    handleWorkerRequest (.obj [("jsonrpc", .str "2.0"), ("id", .str "s1"),
        ("method", .str "storage.get"),
        ("params", .obj [("key", .str "k")])]) =
      [.storageRequestEvent (.obj [("jsonrpc", .str "2.0"), ("id", .str "s1"),
          ("method", .str "storage.get"),
          ("params", .obj [("key", .str "k")])]),
       .sentLine (createErrorResponse "s1" WorkerErrorCodes.STORAGE_ERROR
          "Storage proxy not yet implemented")] := by
  have h : strStartsWith "storage.get" "storage." = true := by decide
  simp [handleWorkerRequest, Json.getProp, List.lookup, h]

/-! ## Claim C4 — quota accounting -/

/-- C4 (code bug): the quota check mixes units.  With a stored value
whose JSON text is `"é"` (3 characters, 4 UTF-8 bytes) and a cap of 4,
adding the 1-byte value `5` should fail by the specification's all-bytes
formula (4 − 0 + 1 > 4), but the code sums `LENGTH(value)` in characters
(3 − 0 + 1 ≤ 4) and the `set` succeeds. -/
theorem quota_counts_chars_not_bytes :
    (SqliteStorageContext.set [("a", ⟨"\"é\"", 0, none⟩)] "b" "5" none 0 4).isOk
      = true
    ∧ specQuotaExceeded [("a", ⟨"\"é\"", 0, none⟩)] "b" "5" 4 := by
  constructor
  · rfl
  · unfold specQuotaExceeded
    decide

/-! ## Claim C6 — literal prefixes in `list` -/

/-- C6 (code bug): the `%` in a stored key is not matched literally by
`list`: the escape step produces the pattern `a\%%`, but the backing
`LIKE` query has no `ESCAPE` clause, so the backslash is a literal
character and the key `a%b`, although it starts with the requested
prefix `a%`, is not returned.  The in-memory provider returns it. -/
theorem list_wildcard_escaping_ineffective :
    (SqliteStorageContext.list [("a%b", ⟨"1", 0, none⟩)] (some "a%") 0).1 = []
    ∧ strStartsWith "a%b" "a%" = true
    ∧ InMemoryStorage.list [("a%b", ⟨"1", 0, none⟩)] (some "a%") = ["a%b"] := by
  have hpat : (escapeLike "a%" ++ "%").data = ['a', '\\', '%', '%'] := by decide
  refine ⟨?_, by decide, by decide⟩
  simp [SqliteStorageContext.list, sqlCleanup, rowExpired, hpat, likeMatch]

/-! ## Claim C5 — expiry boundary -/

/-- C5 (counterexample): an entry whose `expiresAt` is 5 is still
returned by `get` at `now = 5` by both providers — expiry is strict
(`expires_at < now`), so the entry is not yet invisible at the exact
expiry instant, contradicting the claim that `get` returns null there. -/
theorem get_at_expiry_instant_returns_value :
    (SqliteStorageContext.get [("k", ⟨"\"v\"", 0, some 5⟩)] "k" 5).1
      = some "\"v\""
    ∧ (InMemoryStorage.get [("k", ⟨"\"v\"", 0, some 5⟩)] "k" 5).1
      = some "\"v\"" := by
  constructor <;> rfl

/-- C5 (amended): for every stored entry with expiry `e`, `get` at time
`now` returns the value exactly when `now ≤ e` and null exactly when
`now > e`: the entry becomes invisible strictly after its expiry time.
(The `0 < e` bound holds for every entry the providers create, since
`expiresAt = now + ttl` with `ttl > 0`; it rules out the in-memory
truthiness quirk for `expiresAt = 0`.) -/
theorem get_expiry_is_strict (tblS : List (String × SqlRow))
    (tblM : List (String × MemEntry)) (key value : String)
    (cS cM e now : Nat) (hndS : nodupKeys tblS)
    (hS : tblS.lookup key = some ⟨value, cS, some e⟩)
    (hM : tblM.lookup key = some ⟨value, cM, some e⟩)
    (hpos : 0 < e) :
    (SqliteStorageContext.get tblS key now).1
      = (if now ≤ e then some value else none)
    ∧ (InMemoryStorage.get tblM key now).1
      = (if now ≤ e then some value else none) := by
  constructor
  · have hclean := lookup_filterVal
      (fun r : SqlRow => !(rowExpired now r.expiresAt)) tblS key hndS
    rw [hS] at hclean
    by_cases h : now ≤ e
    · have hexp : rowExpired now (some e) = false := by
        simp [rowExpired]
        omega
      simp [SqliteStorageContext.get, sqlCleanup, hclean, hexp, h]
    · have hexp : rowExpired now (some e) = true := by
        simp [rowExpired]
        omega
      simp [SqliteStorageContext.get, sqlCleanup, hclean, hexp, h]
  · by_cases h : now ≤ e
    · have hexp : memExpired now (some e) = false := by
        simp [memExpired]
        omega
      simp [InMemoryStorage.get, hM, hexp, h]
    · have hexp : memExpired now (some e) = true := by
        simp [memExpired]
        omega
      simp [InMemoryStorage.get, hM, hexp, h]

/-- Witness for `get_expiry_is_strict` at a concrete entry expiring at 5,
read at 7 (invisible) — instantiating every hypothesis concretely. -/
theorem get_expiry_is_strict_witness :
    (SqliteStorageContext.get [("k", ⟨"\"v\"", 3, some 5⟩)] "k" 7).1 = none
    ∧ (InMemoryStorage.get [("k", ⟨"\"v\"", 3, some 5⟩)] "k" 7).1 = none := by
  have h := get_expiry_is_strict [("k", ⟨"\"v\"", 3, some 5⟩)]
    [("k", ⟨"\"v\"", 3, some 5⟩)] "k" "\"v\"" 3 3 5 7
    (by simp [nodupKeys]) (by rfl) (by rfl) (by omega)
  simpa using h

/-! ## Claim C10 — non-positive TTL means no expiry -/

/-- C10: a `set` with a TTL of zero or a negative number stores the entry
with no expiry at all (`expiresAt` null/absent) in both providers, and a
subsequent `get` at any later instant returns the value.  (For the
persistent provider this is stated for a `set` that passed the quota
check; the in-memory provider has no quota.) -/
theorem non_positive_ttl_stores_permanent_entry
    (tblS tblS' : List (String × SqlRow)) (tblM : List (String × MemEntry))
    (key value : String) (ttl : Int) (now now' : Nat) (maxB : Int)
    (hndS : nodupKeys tblS) (httl : ttl ≤ 0)
    (hset : SqliteStorageContext.set tblS key value (some ttl) now maxB
      = .ok tblS') :
    tblS'.lookup key = some ⟨value, now, none⟩
    ∧ (SqliteStorageContext.get tblS' key now').1 = some value
    ∧ (InMemoryStorage.set tblM key value (some ttl) now).lookup key
      = some ⟨value, now, none⟩
    ∧ (InMemoryStorage.get (InMemoryStorage.set tblM key value (some ttl) now)
        key now').1 = some value := by
  have h0 : ¬ ((0 : Int) < ttl) := by omega
  have hexp : expiryOf (some ttl) now = none := by
    simp [expiryOf]
    omega
  have htbl : tblS' = upsert tblS key ⟨value, now, none⟩ := by
    unfold SqliteStorageContext.set at hset
    split at hset
    · exact absurd hset (by simp)
    · simp only [Except.ok.injEq] at hset
      rw [← hset, hexp]
  subst htbl
  have hndS' : nodupKeys (upsert tblS key ⟨value, now, none⟩) :=
    nodupKeys_upsert tblS key _ hndS
  have hlook : (upsert tblS key (⟨value, now, none⟩ : SqlRow)).lookup key
      = some ⟨value, now, none⟩ := lookup_upsert_self tblS key _
  refine ⟨hlook, ?_, ?_, ?_⟩
  · have hclean := lookup_filterVal
      (fun r : SqlRow => !(rowExpired now' r.expiresAt))
      (upsert tblS key ⟨value, now, none⟩) key hndS'
    rw [hlook] at hclean
    simp [rowExpired] at hclean
    simp [SqliteStorageContext.get, sqlCleanup, hclean, rowExpired]
  · simpa [InMemoryStorage.set, hexp] using
      lookup_upsert_self tblM key (⟨value, now, none⟩ : MemEntry)
  · have hlookM : (upsert tblM key (⟨value, now, none⟩ : MemEntry)).lookup key
        = some ⟨value, now, none⟩ := lookup_upsert_self tblM key _
    simp [InMemoryStorage.set, hexp, InMemoryStorage.get, hlookM, memExpired]

/-- Witness for `non_positive_ttl_stores_permanent_entry`: a `set` with
TTL `-3` at time 10 into empty stores, read back at time 999. -/
theorem non_positive_ttl_witness :
    ([("k", (⟨"\"v\"", 10, none⟩ : SqlRow))].lookup "k"
      = some ⟨"\"v\"", 10, none⟩)
    ∧ (SqliteStorageContext.get [("k", ⟨"\"v\"", 10, none⟩)] "k" 999).1
      = some "\"v\""
    ∧ ((InMemoryStorage.set [] "k" "\"v\"" (some (-3)) 10).lookup "k"
      = some ⟨"\"v\"", 10, none⟩)
    ∧ (InMemoryStorage.get (InMemoryStorage.set [] "k" "\"v\"" (some (-3)) 10)
        "k" 999).1 = some "\"v\"" := by
  have h := non_positive_ttl_stores_permanent_entry []
    [("k", ⟨"\"v\"", 10, none⟩)] [] "k" "\"v\"" (-3) 10 999 100
    (by simp [nodupKeys]) (by omega) (by rfl)
  simpa using h

/-! ## Claim C7 — no pending request leaks -/

theorem channelRun_append (pending : List String) (xs ys : List ChannelEv) :
    channelRun pending (xs ++ ys)
      = ((channelRun (channelRun pending xs).1 ys).1,
         (channelRun pending xs).2 ++ (channelRun (channelRun pending xs).1 ys).2) := by
  induction xs generalizing pending with
  | nil => simp [channelRun]
  | cons e rest ih =>
    simp only [List.cons_append, channelRun, List.append_eq]
    rw [ih]
    simp [List.append_assoc]

/-- C7: whenever the worker process exits or a per-request timeout fires,
every affected pending request is both removed from the pending table and
rejected: the exit handler empties the table and rejects every entry, the
timeout callback removes and rejects its request, and along any event
trace ending in an exit the pending table ends empty with every request
still pending before the exit rejected. -/
theorem pending_requests_never_leak (pending : List String) (id : String)
    (code : Int) (ms : Nat) (evs : List ChannelEv)
    (hnd : pending.Nodup) (hid : id ∈ pending) :
    ((onWorkerExit pending code).1 = []
      ∧ ∀ i ∈ pending, Effect.rejectedExit i code ∈ (onWorkerExit pending code).2)
    ∧ (id ∉ (onTimeout pending id ms).1
      ∧ Effect.rejectedTimeout id ms ∈ (onTimeout pending id ms).2)
    ∧ ((channelRun pending (evs ++ [.exitEv code])).1 = []
      ∧ ∀ i ∈ (channelRun pending evs).1,
          Effect.rejectedExit i code ∈ (channelRun pending (evs ++ [.exitEv code])).2) := by
  refine ⟨⟨rfl, ?_⟩, ⟨?_, ?_⟩, ?_, ?_⟩
  · intro i hi
    exact List.mem_map.mpr ⟨i, hi, rfl⟩
  · exact hnd.not_mem_erase
  · simp [onTimeout]
  · rw [channelRun_append]
    simp [channelRun, channelStep, onWorkerExit]
  · intro i hi
    rw [channelRun_append]
    simp only [List.mem_append]
    right
    show Effect.rejectedExit i code
      ∈ (channelRun (channelRun pending evs).1 [.exitEv code]).2
    simp only [channelRun, channelStep, onWorkerExit, List.append_nil]
    exact List.mem_map.mpr ⟨i, hi, rfl⟩

/-- Witness for `pending_requests_never_leak` at the pending table
`[a, b]`, timing out `a` and running the trace `[send c, exit 1]`. -/
theorem pending_requests_never_leak_witness :
    ((onWorkerExit ["a", "b"] 1).1 = []
      ∧ ∀ i ∈ ["a", "b"], Effect.rejectedExit i 1 ∈ (onWorkerExit ["a", "b"] 1).2)
    ∧ ("a" ∉ (onTimeout ["a", "b"] "a" 60000).1
      ∧ Effect.rejectedTimeout "a" 60000 ∈ (onTimeout ["a", "b"] "a" 60000).2)
    ∧ ((channelRun ["a", "b"] ([ChannelEv.send "c"] ++ [.exitEv 1])).1 = []
      ∧ ∀ i ∈ (channelRun ["a", "b"] [ChannelEv.send "c"]).1,
          Effect.rejectedExit i 1
            ∈ (channelRun ["a", "b"] ([ChannelEv.send "c"] ++ [.exitEv 1])).2) :=
  pending_requests_never_leak ["a", "b"] "a" 1 60000 [ChannelEv.send "c"]
    (by simp) (by simp)

/-! ## Claim C8 — what `parseMessage` accepts -/

/-- C8 (counterexample): `parseMessage` accepts messages that are neither
a request carrying `method` nor a response carrying exactly one of
`result` / `error`: a bare `\x7b"jsonrpc":"2.0","id":"1"\x7d` and a
message carrying both `result` and `error` are both returned unchanged. -/
theorem parseMessage_accepts_malformed :
    parseMessage (.json (.obj [("jsonrpc", .str "2.0"), ("id", .str "1")]))
      = .ok (.obj [("jsonrpc", .str "2.0"), ("id", .str "1")])
    ∧ specWellFormedMessage (.obj [("jsonrpc", .str "2.0"), ("id", .str "1")])
      = false
    ∧ parseMessage (.json (.obj [("jsonrpc", .str "2.0"), ("id", .str "1"),
        ("result", .num 1), ("error", .null)]))
      = .ok (.obj [("jsonrpc", .str "2.0"), ("id", .str "1"),
        ("result", .num 1), ("error", .null)])
    ∧ specWellFormedMessage (.obj [("jsonrpc", .str "2.0"), ("id", .str "1"),
        ("result", .num 1), ("error", .null)]) = false := by
  refine ⟨rfl, by decide, rfl, by decide⟩

/-- C8 (amended): `parseMessage` accepts a line exactly when it is a JSON
object carrying `jsonrpc` `"2.0"` and a string `id` — the presence of
`method`, `result` or `error` is never checked — and every non-blank line
it rejects is surfaced as a parse-error diagnostic by `handleLine` while
the pending-request table is left unchanged. -/
theorem parseMessage_accepts_iff (l : RawLine) (pending : List String)
    (e : ParseErr) :
    ((parseMessage l).isOk = true ↔
      ∃ j, l = .json j ∧ j.isObjTy = true
        ∧ propIsStr j "jsonrpc" "2.0" = true
        ∧ propIsStringTyped j "id" = true)
    ∧ (l ≠ .blank → parseMessage l = .error e →
        handleLine pending l = (pending, [.parseErrorEvent e])) := by
  constructor
  · cases l with
    | blank => simp [parseMessage, Except.isOk, Except.toBool]
    | notJson => simp [parseMessage, Except.isOk, Except.toBool]
    | json j =>
      cases j with
      | null =>
        simp [parseMessage, Json.typeofIsObject, Json.isObjTy, Except.isOk,
          Except.toBool]
      | bool b =>
        simp [parseMessage, Json.typeofIsObject, Json.isObjTy, Except.isOk,
          Except.toBool]
      | num n =>
        simp [parseMessage, Json.typeofIsObject, Json.isObjTy, Except.isOk,
          Except.toBool]
      | str s =>
        simp [parseMessage, Json.typeofIsObject, Json.isObjTy, Except.isOk,
          Except.toBool]
      | arr a =>
        simp [parseMessage, Json.typeofIsObject, Json.isObjTy, propIsStr,
          Json.getProp, Except.isOk, Except.toBool]
      | obj fields =>
        simp only [parseMessage, Json.typeofIsObject, Bool.true_and,
          Bool.not_false, Json.isObjTy]
        by_cases h1 : propIsStr (.obj fields) "jsonrpc" "2.0"
        · by_cases h2 : propIsStringTyped (.obj fields) "id"
          · simp [h1, h2, Except.isOk, Except.toBool]
          · simp [h1, h2, Except.isOk, Except.toBool]
        · simp [h1, Except.isOk, Except.toBool]
  · intro hbl herr
    cases l with
    | blank => exact absurd rfl hbl
    | notJson => simp [handleLine, herr]
    | json j => simp [handleLine, herr]

/-- Witness for `parseMessage_accepts_iff` at a line holding the JSON
string `"x"` (not an object), a one-entry pending table and the
not-an-object diagnostic. -/
theorem parseMessage_accepts_iff_witness :
    ((parseMessage (.json (.str "x"))).isOk = true ↔
      ∃ j, RawLine.json (.str "x") = .json j ∧ j.isObjTy = true
        ∧ propIsStr j "jsonrpc" "2.0" = true
        ∧ propIsStringTyped j "id" = true)
    ∧ (RawLine.json (.str "x") ≠ .blank →
        parseMessage (.json (.str "x")) = .error .notAnObject →
        handleLine ["a"] (.json (.str "x"))
          = (["a"], [.parseErrorEvent .notAnObject])) :=
  parseMessage_accepts_iff (.json (.str "x")) ["a"] .notAnObject

/-! ## Claim C9 — action shapes in manifest validation -/

theorem hasProp_obj_exists (fields : List (String × Json)) (k : String)
    (h : Json.hasProp (.obj fields) k = true) :
    ∃ v, Json.getProp (.obj fields) k = some v := by
  simp only [Json.hasProp] at h
  rw [any_key_eq_lookup_isSome] at h
  simpa [Json.getProp, Option.isSome_iff_exists] using h

theorem templateEntryOk_shape (j : Json) (h : templateEntryOk j = true) :
    (j.isObjTy && propIsStringTyped j "text") = true := by
  cases j with
  | obj fs =>
    simp only [templateEntryOk, Bool.and_eq_true] at h
    obtain ⟨⟨hobj, hreq⟩, htext⟩ := h
    obtain ⟨v, hv⟩ := hasProp_obj_exists fs "text"
      (by simpa [requiredOk] using hreq)
    rw [propOk, hv] at htext
    have hvs : ∃ t, v = .str t := by
      cases v <;> simp_all [Json.isStrTy]
    obtain ⟨t, rfl⟩ := hvs
    simp [Json.isObjTy, propIsStringTyped, hv]
  | null => simp [templateEntryOk, Json.isObjTy] at h
  | bool b => simp [templateEntryOk, Json.isObjTy] at h
  | num n => simp [templateEntryOk, Json.isObjTy] at h
  | str s => simp [templateEntryOk, Json.isObjTy] at h
  | arr xs => simp [templateEntryOk, Json.isObjTy] at h

theorem actionTemplateOk_implies_shape (a : Json)
    (h : actionTemplateOk a = true) : specTemplateShapeNoMin a = true := by
  cases a with
  | obj fields =>
    simp only [actionTemplateOk, Bool.and_eq_true] at h
    obtain ⟨⟨⟨⟨⟨⟨⟨hobj, hreq⟩, hmode⟩, _hin⟩, _hagent⟩, _huser⟩, hrt⟩, _hdesc⟩ := h
    simp only [requiredOk, List.all_eq_true] at hreq
    have hm := hasProp_obj_exists fields "responseMode"
      (hreq "responseMode" (by simp))
    obtain ⟨v, hv⟩ := hm
    rw [propOk, hv] at hmode
    rw [Bool.and_eq_true] at hmode
    obtain ⟨hstr, hval⟩ := hmode
    have hvs : v = .str "template" := by
      cases v <;> simp_all
    obtain ⟨rt, hrtv⟩ := hasProp_obj_exists fields "responseTemplates"
      (hreq "responseTemplates" (by simp))
    rw [propOk, hrtv] at hrt
    have hrtobj : ∃ es, rt = .obj es := by
      cases rt <;> simp_all [Json.isObjTy, responseTemplatesOk]
    obtain ⟨es, hes⟩ := hrtobj
    subst hvs hes
    simp only [specTemplateShapeNoMin, propIsStr, hv, hrtv, Bool.and_eq_true]
    refine ⟨⟨⟨by simp, ?_⟩, ?_⟩, ?_⟩
    · simpa using hreq "inputSchema" (by simp)
    · simpa using hreq "agentDataSchema" (by simp)
    · simp only [responseTemplatesOk, Bool.and_eq_true, Json.objFields] at hrt
      obtain ⟨_, hall⟩ := hrt
      rw [List.all_eq_true] at hall ⊢
      intro p hp
      exact templateEntryOk_shape p.2 (hall p hp)
  | null => simp [actionTemplateOk, Json.isObjTy] at h
  | bool b => simp [actionTemplateOk, Json.isObjTy] at h
  | num n => simp [actionTemplateOk, Json.isObjTy] at h
  | str s => simp [actionTemplateOk, Json.isObjTy] at h
  | arr xs => simp [actionTemplateOk, Json.isObjTy] at h

theorem actionPassthroughOk_implies_shape (a : Json)
    (h : actionPassthroughOk a = true) : specPassthroughShape a = true := by
  cases a with
  | obj fields =>
    simp only [actionPassthroughOk, Bool.and_eq_true] at h
    obtain ⟨⟨⟨⟨⟨hobj, hreq⟩, hmode⟩, _hin⟩, _huser⟩, _hdesc⟩ := h
    simp only [requiredOk, List.all_eq_true] at hreq
    obtain ⟨v, hv⟩ := hasProp_obj_exists fields "responseMode"
      (hreq "responseMode" (by simp))
    rw [propOk, hv] at hmode
    rw [Bool.and_eq_true] at hmode
    obtain ⟨hstr, hval⟩ := hmode
    have hvs : v = .str "passthrough" := by
      cases v <;> simp_all
    subst hvs
    simp only [specPassthroughShape, propIsStr, hv, Bool.and_eq_true]
    refine ⟨⟨by simp, ?_⟩, ?_⟩
    · simpa using hreq "inputSchema" (by simp)
    · simpa using hreq "userContentSchema" (by simp)
  | null => simp [actionPassthroughOk, Json.isObjTy] at h
  | bool b => simp [actionPassthroughOk, Json.isObjTy] at h
  | num n => simp [actionPassthroughOk, Json.isObjTy] at h
  | str s => simp [actionPassthroughOk, Json.isObjTy] at h
  | arr xs => simp [actionPassthroughOk, Json.isObjTy] at h

/-- C9 (counterexample): a manifest whose only action has
`responseMode: "template"` with `inputSchema`, `agentDataSchema` and an
*empty* `responseTemplates` map is accepted by `validateManifest`
(`responseTemplates` carries no `minProperties`), although the action
satisfies neither the claim's template shape (which demands at least one
template) nor the passthrough shape. -/
theorem manifest_with_empty_templates_accepted :
    validateManifest manifestEmptyTemplates = true
    ∧ manifestEmptyTemplates.getProp "actions"
        = some (.obj [("search", actionEmptyTemplates)])
    ∧ specTemplateShape actionEmptyTemplates = false
    ∧ specPassthroughShape actionEmptyTemplates = false := by
  refine ⟨by decide, by rfl, by decide, by decide⟩

/-- C9 (amended): `validateManifest` accepts a manifest only if its
`actions` value is an object with at least one entry, each of whose
values satisfies the template shape with a possibly-empty
`responseTemplates` object, or the passthrough shape. -/
theorem accepted_manifest_actions_well_shaped (j : Json)
    (hv : validateManifest j = true) :
    ∃ acts : List (String × Json),
      j.getProp "actions" = some (.obj acts)
      ∧ acts.length ≥ 1
      ∧ ∀ p ∈ acts,
          specTemplateShapeNoMin p.2 = true ∨ specPassthroughShape p.2 = true := by
  cases j with
  | obj fields =>
    simp only [validateManifest, Bool.and_eq_true] at hv
    obtain ⟨⟨⟨⟨⟨⟨⟨⟨⟨⟨⟨⟨⟨hobj, hreq⟩, _hsv⟩, _hid⟩, _hname⟩, _hdesc⟩, _hver⟩,
      _hcap⟩, _hlim⟩, _hentry⟩, _hauth⟩, _hrepo⟩, _hlic⟩, hacts⟩ := hv
    simp only [requiredOk, List.all_eq_true] at hreq
    obtain ⟨acts', hacts'⟩ := hasProp_obj_exists fields "actions"
      (hreq "actions" (by simp))
    rw [propOk, hacts'] at hacts
    simp only [actionsOk, Bool.and_eq_true] at hacts
    obtain ⟨⟨hactsobj, hlen⟩, hall⟩ := hacts
    have : ∃ acts, acts' = .obj acts := by
      cases acts' <;> simp_all [Json.isObjTy]
    obtain ⟨acts, rfl⟩ := this
    refine ⟨acts, hacts', by simpa [Json.objFields] using hlen, ?_⟩
    intro p hp
    simp only [List.all_eq_true] at hall
    have := hall p (by simpa [Json.objFields] using hp)
    rw [Bool.or_eq_true] at this
    rcases this with h | h
    · exact Or.inl (actionTemplateOk_implies_shape p.2 h)
    · exact Or.inr (actionPassthroughOk_implies_shape p.2 h)
  | null => simp [validateManifest, Json.isObjTy] at hv
  | bool b => simp [validateManifest, Json.isObjTy] at hv
  | num n => simp [validateManifest, Json.isObjTy] at hv
  | str s => simp [validateManifest, Json.isObjTy] at hv
  | arr xs => simp [validateManifest, Json.isObjTy] at hv

/-- Witness for `accepted_manifest_actions_well_shaped` at the concrete
manifest `manifestEmptyTemplates`. -/
theorem accepted_manifest_actions_well_shaped_witness :
    ∃ acts : List (String × Json),
      manifestEmptyTemplates.getProp "actions" = some (.obj acts)
      ∧ acts.length ≥ 1
      ∧ ∀ p ∈ acts,
          specTemplateShapeNoMin p.2 = true ∨ specPassthroughShape p.2 = true :=
  accepted_manifest_actions_well_shaped manifestEmptyTemplates (by decide)

/-! ## Claim C1 — unconstrained-string reporting -/

/-- C1 (counterexample): the walker diverges from the claim on three
nodes.  A node of type `["string", "null"]` with no constraint is
string-typed by the claim but never reported (the code compares `type`
with the exact string `"string"`); a string node with an *empty* `enum`
must be reported by the claim (which demands a non-empty enum) but the
truthy `schema.enum` test treats it as constrained; and a string node
with `format: "url"` is safe-listed by the claim's `uri/url` but reported
by the code, whose `ALLOWED_STRING_FORMATS` holds only `uri`. -/
theorem unconstrained_string_walker_divergences :
    (findUnconstrainedStrings schemaArrayStringType "" = []
      ∧ specStringTyped schemaArrayStringType = true
      ∧ specConstrainedString schemaArrayStringType = false)
    ∧ (findUnconstrainedStrings schemaEmptyEnum "" = []
      ∧ specStringTyped schemaEmptyEnum = true
      ∧ specConstrainedString schemaEmptyEnum = false)
    ∧ (findUnconstrainedStrings schemaFormatUrl "" = ["root"]
      ∧ specStringTyped schemaFormatUrl = true
      ∧ specConstrainedString schemaFormatUrl = true) := by
  refine ⟨⟨?_, by decide, by decide⟩, ⟨?_, by decide, by decide⟩,
    ⟨?_, by decide, by decide⟩⟩
  · simp [findUnconstrainedStrings, schemaArrayStringType, isConstrainedString]
  · simp [findUnconstrainedStrings, schemaEmptyEnum, isConstrainedString,
      JSchema.enum?]
  · simp [findUnconstrainedStrings, schemaFormatUrl, isConstrainedString,
      JSchema.enum?, JSchema.const?, JSchema.pattern?, JSchema.format?,
      ALLOWED_STRING_FORMATS, pathOrRoot]

theorem mem_fusEntries (l : List (String × JSchema)) (mkPath : String → String)
    (x : String) :
    x ∈ fusEntries l mkPath ↔
      ∃ k c, (k, c) ∈ l ∧ x ∈ findUnconstrainedStrings c (mkPath k) := by
  induction l with
  | nil => simp [fusEntries]
  | cons a rest ih =>
    obtain ⟨k, c⟩ := a
    rw [fusEntries]
    simp only [List.mem_append, ih]
    constructor
    · intro h
      rcases h with h | ⟨k', c', hm, hx⟩
      · exact ⟨k, c, by simp, h⟩
      · exact ⟨k', c', by simp [hm], hx⟩
    · rintro ⟨k', c', hm, hx⟩
      rcases List.mem_cons.mp hm with heq | hm'
      · obtain ⟨h1, h2⟩ := Prod.mk.injEq .. ▸ heq
        subst h1 h2
        left
        exact hx
      · right
        exact ⟨k', c', hm', hx⟩

theorem mem_fus_aux : ∀ (n : Nat) (s : JSchema), sizeOf s ≤ n →
    ∀ (p x : String),
      (x ∈ findUnconstrainedStrings s p ↔
        ∃ q t, Reach p s q t ∧ t.type? = some (.single "string")
          ∧ isConstrainedString t = false ∧ x = pathOrRoot q) := by
  intro n
  induction n with
  | zero =>
    intro s hs
    obtain ⟨ty, en, co, pa, fo, props, itemsF, defsF⟩ := s
    simp at hs
  | succ n ih =>
    intro s hs p x
    obtain ⟨ty, en, co, pa, fo, props, itemsF, defsF⟩ := s
    rw [findUnconstrainedStrings.eq_def]
    constructor
    · intro hx
      simp only [List.mem_append] at hx
      rcases hx with ((hA | hB) | hC) | hD
      · by_cases hc : (ty == some (SchemaType.single "string"))
            && !(isConstrainedString (.mk ty en co pa fo props itemsF defsF))
        · rw [if_pos hc] at hA
          simp only [List.mem_singleton] at hA
          rw [Bool.and_eq_true, beq_iff_eq, Bool.not_eq_true'] at hc
          exact ⟨p, .mk ty en co pa fo props itemsF defsF, .here p _,
            by simpa [JSchema.type?] using hc.1, hc.2, hA⟩
        · rw [if_neg hc] at hA
          exact absurd hA (List.not_mem_nil x)
      · cases hprops : props with
        | none => rw [hprops] at hB; exact absurd hB (List.not_mem_nil x)
        | some ps =>
          rw [hprops] at hB
          obtain ⟨k, c, hm, hx'⟩ := (mem_fusEntries ps _ x).mp hB
          have hszc : sizeOf c ≤ n := by
            have h1 := List.sizeOf_lt_of_mem hm
            subst hprops
            simp at h1 hs
            omega
          obtain ⟨q, t', hr, h1, h2, h3⟩ := (ih c hszc (childPath p k) x).mp hx'
          exact ⟨q, t', .viaProp (by simp [JSchema.properties, hprops]) hm hr,
            h1, h2, h3⟩
      · cases hitems : itemsF with
        | none => rw [hitems] at hC; exact absurd hC (List.not_mem_nil x)
        | some c =>
          rw [hitems] at hC
          have hszc : sizeOf c ≤ n := by
            subst hitems
            simp at hs
            omega
          obtain ⟨q, t', hr, h1, h2, h3⟩ := (ih c hszc (p ++ "[]") x).mp hC
          exact ⟨q, t', .viaItems (by simp [JSchema.items, hitems]) hr,
            h1, h2, h3⟩
      · cases hdefs : defsF with
        | none => rw [hdefs] at hD; exact absurd hD (List.not_mem_nil x)
        | some ds =>
          rw [hdefs] at hD
          obtain ⟨k, c, hm, hx'⟩ := (mem_fusEntries ds _ x).mp hD
          have hszc : sizeOf c ≤ n := by
            have h1 := List.sizeOf_lt_of_mem hm
            subst hdefs
            simp at h1 hs
            omega
          obtain ⟨q, t', hr, h1, h2, h3⟩ :=
            (ih c hszc ("$defs." ++ k) x).mp hx'
          exact ⟨q, t', .viaDefs (by simp [JSchema.defs, hdefs]) hm hr,
            h1, h2, h3⟩
    · rintro ⟨q, t', hr, h1, h2, h3⟩
      simp only [List.mem_append]
      cases hr with
      | here =>
        left; left; left
        have hc : ((ty == some (SchemaType.single "string"))
            && !(isConstrainedString (.mk ty en co pa fo props itemsF defsF)))
            = true := by
          rw [Bool.and_eq_true, beq_iff_eq, Bool.not_eq_true']
          exact ⟨by simpa [JSchema.type?] using h1, h2⟩
        rw [if_pos hc]
        simp [h3]
      | @viaProp _ _ _ _ c ps k hps hm hr' =>
        left; left; right
        simp only [JSchema.properties] at hps
        rw [hps]
        have hszc : sizeOf c ≤ n := by
          have hlt := List.sizeOf_lt_of_mem hm
          subst hps
          simp at hlt hs
          omega
        exact (mem_fusEntries ps _ x).mpr
          ⟨k, c, hm, (ih c hszc (childPath p k) x).mpr ⟨q, t', hr', h1, h2, h3⟩⟩
      | @viaItems _ _ _ _ c hi hr' =>
        left; right
        simp only [JSchema.items] at hi
        rw [hi]
        have hszc : sizeOf c ≤ n := by
          subst hi
          simp at hs
          omega
        exact (ih c hszc (p ++ "[]") x).mpr ⟨q, t', hr', h1, h2, h3⟩
      | @viaDefs _ _ _ _ c ds k hd hm hr' =>
        right
        simp only [JSchema.defs] at hd
        rw [hd]
        have hszc : sizeOf c ≤ n := by
          have hlt := List.sizeOf_lt_of_mem hm
          subst hd
          simp at hlt hs
          omega
        exact (mem_fusEntries ds _ x).mpr
          ⟨k, c, hm, (ih c hszc ("$defs." ++ k) x).mpr ⟨q, t', hr', h1, h2, h3⟩⟩

/-! ## Claim C3 — in-memory vs SQLite -/

/-- C3 (counterexample): the two providers are not semantically
identical.  With a capability cap of 1 byte, a `set` fails on the SQLite
provider but succeeds on the in-memory provider (which ignores its
`capabilities` argument and enforces no quota); and deleting a key whose
entry expired — after an unrelated `get` let the SQLite provider sweep it
while the in-memory provider kept it — returns `false` on SQLite but
`true` in memory. -/
theorem storage_providers_diverge :
    (runSql [] 1 [(.set "k" "22" none, 0), (.get "k", 0)]).isOk = false
    ∧ runMem [] [(.set "k" "22" none, 0), (.get "k", 0)]
        = ([.okSet, .val (some "22")], [("k", ⟨"22", 0, none⟩)])
    ∧ (runSql [] 100 [(.set "k" "7" (some 5), 0), (.get "o", 10), (.delete "k", 10)]).toOption
        = some ([.okSet, .val none, .deleted false], [])
    ∧ runMem [] [(.set "k" "7" (some 5), 0), (.get "o", 10), (.delete "k", 10)]
        = ([.okSet, .val none, .deleted true], []) := by
  decide

theorem memExpired_eq_rowExpired (e : Option Nat) (now : Nat)
    (hp : match e with | some x => 0 < x | none => True) :
    memExpired now e = rowExpired now e := by
  cases e with
  | none => rfl
  | some x =>
    simp only [memExpired, rowExpired]
    simp at hp
    have : (x != 0) = true := by simpa using Nat.pos_iff_ne_zero.mp hp
    simp [this]

theorem posExp_entry (m : List (String × MemEntry)) (k : String)
    (e : MemEntry) (hp : PosExp m) (hl : m.lookup k = some e) :
    match e.expiresAt with | some x => 0 < x | none => True :=
  hp (k, e) (lookup_mem m k e hl)

theorem sqlLive_mono (t t' : Nat) (tbl : List (String × SqlRow))
    (k : String) (h : t ≤ t') :
    sqlLive t' tbl k = (sqlLive t tbl k).bind
      (fun p => if rowExpired t' p.2 then none else some p) := by
  unfold sqlLive
  cases tbl.lookup k with
  | none => simp
  | some r =>
    by_cases he : rowExpired t r.expiresAt
    · have he' : rowExpired t' r.expiresAt = true := by
        cases hx : r.expiresAt with
        | none => simp [rowExpired, hx] at he
        | some x =>
          simp [rowExpired, hx] at he ⊢
          omega
      simp [he, he']
    · by_cases he' : rowExpired t' r.expiresAt
      · simp [he, he']
      · simp [he, he']

theorem memLive_mono (t t' : Nat) (tbl : List (String × MemEntry))
    (k : String) (h : t ≤ t') :
    memLive t' tbl k = (memLive t tbl k).bind
      (fun p => if rowExpired t' p.2 then none else some p) := by
  unfold memLive
  cases tbl.lookup k with
  | none => simp
  | some r =>
    by_cases he : rowExpired t r.expiresAt
    · have he' : rowExpired t' r.expiresAt = true := by
        cases hx : r.expiresAt with
        | none => simp [rowExpired, hx] at he
        | some x =>
          simp [rowExpired, hx] at he ⊢
          omega
      simp [he, he']
    · by_cases he' : rowExpired t' r.expiresAt
      · simp [he, he']
      · simp [he, he']

theorem Corr.mono (t t' : Nat) (s : List (String × SqlRow))
    (m : List (String × MemEntry)) (h : Corr t s m) (ht : t ≤ t') :
    Corr t' s m := by
  refine ⟨?_, h.dom, h.pos, h.ndS, h.ndM⟩
  intro k
  rw [sqlLive_mono t t' s k ht, memLive_mono t t' m k ht, h.live k]

theorem sqlLive_cleanup (now : Nat) (s : List (String × SqlRow))
    (k : String) (hnd : nodupKeys s) :
    sqlLive now (sqlCleanup now s) k = sqlLive now s k := by
  have hclean := lookup_filterVal
    (fun r : SqlRow => !(rowExpired now r.expiresAt)) s k hnd
  unfold sqlLive sqlCleanup
  rw [hclean]
  cases s.lookup k with
  | none => simp
  | some r =>
    by_cases he : rowExpired now r.expiresAt
    · simp [he]
    · simp [he]

theorem lookup_sqlCleanup (now : Nat) (s : List (String × SqlRow))
    (k : String) (hnd : nodupKeys s) :
    (sqlCleanup now s).lookup k
      = match s.lookup k with
        | some r => if !(rowExpired now r.expiresAt) then some r else none
        | none => none := by
  unfold sqlCleanup
  rw [lookup_filterVal (fun r : SqlRow => !(rowExpired now r.expiresAt)) s k hnd]
  cases List.lookup k s <;> rfl

theorem sqlGet_eq (s : List (String × SqlRow)) (k : String) (now : Nat)
    (hnd : nodupKeys s) :
    SqliteStorageContext.get s k now
      = ((sqlLive now s k).map Prod.fst, sqlCleanup now s) := by
  unfold SqliteStorageContext.get
  rw [lookup_sqlCleanup now s k hnd]
  unfold sqlLive
  cases s.lookup k with
  | none => simp
  | some r =>
    by_cases he : rowExpired now r.expiresAt
    · simp [he]
    · simp [he]

theorem memGet_fst (m : List (String × MemEntry)) (k : String) (now : Nat)
    (hp : PosExp m) :
    (InMemoryStorage.get m k now).1 = (memLive now m k).map Prod.fst := by
  unfold InMemoryStorage.get memLive
  cases hl : m.lookup k with
  | none => simp
  | some e =>
    have hpe := memExpired_eq_rowExpired e.expiresAt now (posExp_entry m k e hp hl)
    by_cases he : rowExpired now e.expiresAt
    · simp [hpe, he]
    · simp [hpe, he]

theorem posExp_filter (m : List (String × MemEntry))
    (q : String × MemEntry → Bool) (hp : PosExp m) :
    PosExp (m.filter q) :=
  fun p hmem => hp p (List.mem_of_mem_filter hmem)

theorem memLive_eraseKey_self (now : Nat) (m : List (String × MemEntry))
    (k : String) : memLive now (eraseKey m k) k = none := by
  unfold memLive
  rw [lookup_eraseKey_self]

theorem memLive_eraseKey_ne (now : Nat) (m : List (String × MemEntry))
    (k k' : String) (h : k' ≠ k) :
    memLive now (eraseKey m k) k' = memLive now m k' := by
  unfold memLive
  rw [lookup_eraseKey_ne m k k' h]

theorem sqlLive_eraseKey_self (now : Nat) (s : List (String × SqlRow))
    (k : String) : sqlLive now (eraseKey s k) k = none := by
  unfold sqlLive
  rw [lookup_eraseKey_self]

theorem sqlLive_eraseKey_ne (now : Nat) (s : List (String × SqlRow))
    (k k' : String) (h : k' ≠ k) :
    sqlLive now (eraseKey s k) k' = sqlLive now s k' := by
  unfold sqlLive
  rw [lookup_eraseKey_ne s k k' h]

theorem corr_cleanup (now : Nat) (s : List (String × SqlRow))
    (m : List (String × MemEntry)) (h : Corr now s m) :
    Corr now (sqlCleanup now s) m := by
  refine ⟨?_, ?_, h.pos, nodupKeys_filter _ s h.ndS, h.ndM⟩
  · intro k
    rw [sqlLive_cleanup now s k h.ndS, h.live k]
  · intro k hk
    apply h.dom k
    rw [lookup_sqlCleanup now s k h.ndS] at hk
    cases hl : s.lookup k with
    | none =>
      rw [hl] at hk
      simp at hk
    | some r => simp [hl]

theorem corr_get (now : Nat) (s : List (String × SqlRow))
    (m : List (String × MemEntry)) (k : String) (h : Corr now s m) :
    (SqliteStorageContext.get s k now).1 = (InMemoryStorage.get m k now).1
    ∧ Corr now (SqliteStorageContext.get s k now).2
        (InMemoryStorage.get m k now).2 := by
  rw [sqlGet_eq s k now h.ndS]
  constructor
  · show (sqlLive now s k).map Prod.fst = (InMemoryStorage.get m k now).1
    rw [memGet_fst m k now h.pos, h.live k]
  · show Corr now (sqlCleanup now s) (InMemoryStorage.get m k now).2
    unfold InMemoryStorage.get
    cases hl : m.lookup k with
    | none => exact corr_cleanup now s m h
    | some e =>
      have hpe := memExpired_eq_rowExpired e.expiresAt now
        (posExp_entry m k e h.pos hl)
      by_cases he : rowExpired now e.expiresAt
      · simp only [hpe, he, if_true]
        have hml : memLive now m k = none := by
          unfold memLive
          rw [hl]
          simp [he]
        have hcl := corr_cleanup now s m h
        refine ⟨?_, ?_, posExp_filter m _ h.pos, hcl.ndS,
          nodupKeys_eraseKey m k h.ndM⟩
        · intro k'
          by_cases hk : k' = k
          · subst hk
            rw [memLive_eraseKey_self, hcl.live k', hml]
          · rw [memLive_eraseKey_ne now m k k' hk, hcl.live k']
        · intro k' hk'
          by_cases hk : k' = k
          · subst hk
            rw [lookup_sqlCleanup now s k' h.ndS] at hk'
            have hnone : sqlLive now s k' = none := by
              rw [h.live k', hml]
            unfold sqlLive at hnone
            cases hls : s.lookup k' with
            | none =>
              rw [hls] at hk'
              simp at hk'
            | some r =>
              rw [hls] at hk' hnone
              by_cases hre : rowExpired now r.expiresAt
              · simp [hre] at hk'
              · simp [hre] at hnone
          · rw [lookup_eraseKey_ne m k k' hk]
            exact hcl.dom k' hk'
      · simp only [hpe, he, if_false]
        exact corr_cleanup now s m h

theorem corr_delete (now : Nat) (s : List (String × SqlRow))
    (m : List (String × MemEntry)) (k : String) (h : Corr now s m)
    (hsafe : deleteSafeAtB m (.delete k) now = true) :
    (SqliteStorageContext.delete s k).1 = (InMemoryStorage.delete m k).1
    ∧ Corr now (SqliteStorageContext.delete s k).2
        (InMemoryStorage.delete m k).2 := by
  unfold SqliteStorageContext.delete InMemoryStorage.delete
  constructor
  · show (s.any fun p => p.1 == k) = (m.any fun p => p.1 == k)
    rw [any_key_eq_lookup_isSome, any_key_eq_lookup_isSome]
    cases hlm : m.lookup k with
    | none =>
      cases hls : s.lookup k with
      | none => simp
      | some r => exact absurd (h.dom k (by simp [hls])) (by simp [hlm])
    | some e =>
      simp only [deleteSafeAtB, hlm] at hsafe
      have hpe := memExpired_eq_rowExpired e.expiresAt now
        (posExp_entry m k e h.pos hlm)
      have hne : rowExpired now e.expiresAt = false := by
        rw [← hpe]
        simpa using hsafe
      have hml : memLive now m k = some (e.value, e.expiresAt) := by
        unfold memLive
        rw [hlm]
        simp [hne]
      have hs := h.live k
      rw [hml] at hs
      unfold sqlLive at hs
      cases hls : s.lookup k with
      | none =>
        rw [hls] at hs
        simp at hs
      | some r => simp [hls, hlm]
  · show Corr now (eraseKey s k) (eraseKey m k)
    refine ⟨?_, ?_, posExp_filter m _ h.pos, nodupKeys_eraseKey s k h.ndS,
      nodupKeys_eraseKey m k h.ndM⟩
    · intro k'
      by_cases hk : k' = k
      · subst hk
        rw [sqlLive_eraseKey_self, memLive_eraseKey_self]
      · rw [sqlLive_eraseKey_ne now s k k' hk, memLive_eraseKey_ne now m k k' hk]
        exact h.live k'
    · intro k' hk'
      by_cases hk : k' = k
      · subst hk
        rw [lookup_eraseKey_self] at hk'
        simp at hk'
      · rw [lookup_eraseKey_ne m k k' hk]
        rw [lookup_eraseKey_ne s k k' hk] at hk'
        exact h.dom k' hk'

theorem rowExpired_expiryOf (ttl : Option Int) (now : Nat) :
    rowExpired now (expiryOf ttl now) = false := by
  unfold expiryOf rowExpired
  cases ttl with
  | none => rfl
  | some t =>
    by_cases ht : t > 0
    · simp [ht]
    · simp [ht]

theorem corr_set (now : Nat) (s : List (String × SqlRow))
    (m : List (String × MemEntry)) (k v : String) (ttl : Option Int)
    (maxB : Int) (s₁ : List (String × SqlRow)) (h : Corr now s m)
    (hset : SqliteStorageContext.set s k v ttl now maxB = .ok s₁) :
    Corr now s₁ (InMemoryStorage.set m k v ttl now) := by
  have hs1 : s₁ = upsert s k ⟨v, now, expiryOf ttl now⟩ := by
    unfold SqliteStorageContext.set at hset
    split at hset
    · exact absurd hset (by simp)
    · simpa using hset.symm
  subst hs1
  unfold InMemoryStorage.set
  refine ⟨?_, ?_, ?_, nodupKeys_upsert s k _ h.ndS,
    nodupKeys_upsert m k _ h.ndM⟩
  · intro k'
    by_cases hk : k' = k
    · subst hk
      unfold sqlLive memLive
      rw [lookup_upsert_self, lookup_upsert_self]
    · unfold sqlLive memLive
      rw [lookup_upsert_ne s k k' _ hk, lookup_upsert_ne m k k' _ hk]
      have := h.live k'
      unfold sqlLive memLive at this
      exact this
  · intro k' hk'
    by_cases hk : k' = k
    · subst hk
      rw [lookup_upsert_self]
      simp
    · rw [lookup_upsert_ne m k k' _ hk]
      rw [lookup_upsert_ne s k k' _ hk] at hk'
      exact h.dom k' hk'
  · intro p hp
    rcases mem_upsert m k _ p hp with rfl | hmem
    · show match (expiryOf ttl now) with
        | some e => 0 < e
        | none => True
      unfold expiryOf
      cases ttl with
      | none => trivial
      | some t =>
        by_cases ht : t > 0
        · simp [ht]
        · simp [ht]
    · exact h.pos p hmem

theorem corr_getMany (now : Nat) (s : List (String × SqlRow))
    (m : List (String × MemEntry)) (ks : List String) (h : Corr now s m) :
    (SqliteStorageContext.getMany s ks now).1 = InMemoryStorage.getMany m ks now
    ∧ Corr now (SqliteStorageContext.getMany s ks now).2 m := by
  induction ks generalizing s with
  | nil => exact ⟨rfl, h⟩
  | cons k ks ih =>
    have hs1 : Corr now (SqliteStorageContext.get s k now).2 m := by
      rw [sqlGet_eq s k now h.ndS]
      exact corr_cleanup now s m h
    have hv : (SqliteStorageContext.get s k now).1
        = (memLive now m k).map Prod.fst := by
      rw [sqlGet_eq s k now h.ndS]
      show (sqlLive now s k).map Prod.fst = _
      rw [h.live k]
    obtain ⟨ihv, ihs⟩ := ih _ hs1
    unfold SqliteStorageContext.getMany InMemoryStorage.getMany
    rw [hv]
    cases hl : m.lookup k with
    | none =>
      have hml : memLive now m k = none := by
        unfold memLive
        rw [hl]
      rw [hml]
      simp only [Option.map_none']
      exact ⟨ihv, ihs⟩
    | some e =>
      have hpe := memExpired_eq_rowExpired e.expiresAt now
        (posExp_entry m k e h.pos hl)
      by_cases he : rowExpired now e.expiresAt
      · have hml : memLive now m k = none := by
          unfold memLive
          rw [hl]
          simp [he]
        rw [hml]
        simp only [Option.map_none', hpe, he, Bool.not_true, Bool.false_eq_true,
          if_false]
        exact ⟨ihv, ihs⟩
      · have hml : memLive now m k = some (e.value, e.expiresAt) := by
          unfold memLive
          rw [hl]
          simp [he]
        rw [hml]
        simp only [Option.map_some', hpe, he, Bool.not_false, if_true]
        exact ⟨by rw [ihv], ihs⟩

theorem corr_setMany (now : Nat) (s : List (String × SqlRow))
    (m : List (String × MemEntry)) (es : List (String × String))
    (maxB : Int) (s' : List (String × SqlRow)) (h : Corr now s m)
    (hok : SqliteStorageContext.setMany s es now maxB = .ok s') :
    Corr now s' (InMemoryStorage.setMany m es now) := by
  induction es generalizing s m with
  | nil =>
    unfold SqliteStorageContext.setMany at hok
    unfold InMemoryStorage.setMany
    simp only [Except.ok.injEq] at hok
    rw [← hok]
    exact h
  | cons e es ih =>
    obtain ⟨k, v⟩ := e
    unfold SqliteStorageContext.setMany at hok
    cases hset : SqliteStorageContext.set s k v none now maxB with
    | error q =>
      rw [hset] at hok
      simp [Except.bind] at hok
    | ok s₁ =>
      rw [hset] at hok
      simp only [Except.bind] at hok
      have hc := corr_set now s m k v none maxB s₁ h hset
      unfold InMemoryStorage.setMany
      have hmem : InMemoryStorage.set m k v none now
          = upsert m k ⟨v, now, none⟩ := rfl
      rw [hmem] at hc
      exact ih s₁ (upsert m k ⟨v, now, none⟩) hc hok

theorem corr_step (now : Nat) (s : List (String × SqlRow))
    (m : List (String × MemEntry)) (op : StorageOp) (maxB : Int)
    (o : Obs) (s₁ : List (String × SqlRow)) (h : Corr now s m)
    (hsafe : deleteSafeAtB m op now = true)
    (hok : sqlStep s maxB op now = .ok (o, s₁)) :
    (memStep m op now).1 = o ∧ Corr now s₁ (memStep m op now).2 := by
  cases op with
  | get k =>
    simp only [sqlStep, Except.ok.injEq, Prod.mk.injEq] at hok
    obtain ⟨ho, hs⟩ := hok
    obtain ⟨hv, hc⟩ := corr_get now s m k h
    simp only [memStep]
    constructor
    · rw [← ho, ← hv]
    · rw [← hs]
      exact hc
  | set k v ttl =>
    simp only [sqlStep] at hok
    cases hset : SqliteStorageContext.set s k v ttl now maxB with
    | error e =>
      rw [hset] at hok
      simp at hok
    | ok s' =>
      rw [hset] at hok
      simp only [Except.ok.injEq, Prod.mk.injEq] at hok
      obtain ⟨ho, hs⟩ := hok
      simp only [memStep]
      refine ⟨ho, ?_⟩
      rw [← hs]
      exact corr_set now s m k v ttl maxB s' h hset
  | delete k =>
    simp only [sqlStep, Except.ok.injEq, Prod.mk.injEq] at hok
    obtain ⟨ho, hs⟩ := hok
    obtain ⟨hv, hc⟩ := corr_delete now s m k h hsafe
    simp only [memStep]
    constructor
    · rw [← ho, ← hv]
    · rw [← hs]
      exact hc
  | getMany ks =>
    simp only [sqlStep, Except.ok.injEq, Prod.mk.injEq] at hok
    obtain ⟨ho, hs⟩ := hok
    obtain ⟨hv, hc⟩ := corr_getMany now s m ks h
    simp only [memStep]
    constructor
    · rw [← ho, hv]
    · rw [← hs]
      exact hc
  | setMany es =>
    simp only [sqlStep] at hok
    cases hset : SqliteStorageContext.setMany s es now maxB with
    | error e =>
      rw [hset] at hok
      simp at hok
    | ok s' =>
      rw [hset] at hok
      simp only [Except.ok.injEq, Prod.mk.injEq] at hok
      obtain ⟨ho, hs⟩ := hok
      simp only [memStep]
      refine ⟨ho, ?_⟩
      rw [← hs]
      exact corr_setMany now s m es maxB s' h hset

theorem corr_empty (t : Nat) : Corr t [] [] := by
  refine ⟨?_, ?_, ?_, ?_, ?_⟩
  · intro k
    rfl
  · intro k hk
    simpa [List.lookup] using hk
  · intro p hp
    simp at hp
  · simp [nodupKeys]
  · simp [nodupKeys]

theorem runs_agree_aux (ops : List (StorageOp × Nat)) :
    ∀ (t : Nat) (s : List (String × SqlRow)) (m : List (String × MemEntry))
      (maxB : Int) (obs : List Obs) (sF : List (String × SqlRow)),
      Corr t s m → timesMonoB t ops = true → deleteSafeB m ops = true →
      runSql s maxB ops = .ok (obs, sF) →
      (runMem m ops).1 = obs := by
  induction ops with
  | nil =>
    intro t s m maxB obs sF _ _ _ hok
    simp only [runSql, Except.ok.injEq, Prod.mk.injEq] at hok
    simp [runMem, hok.1]
  | cons p rest ih =>
    obtain ⟨op, now⟩ := p
    intro t s m maxB obs sF h hmono hdel hok
    simp only [timesMonoB, Bool.and_eq_true, decide_eq_true_eq] at hmono
    obtain ⟨htn, hmono'⟩ := hmono
    simp only [deleteSafeB, Bool.and_eq_true] at hdel
    obtain ⟨hsafe, hdel'⟩ := hdel
    simp only [runSql] at hok
    split at hok
    · simp at hok
    · rename_i r hstep
      split at hok
      · simp at hok
      · rename_i rr hrest
        obtain ⟨o, s₁⟩ := r
        obtain ⟨obs', sF'⟩ := rr
        simp only [Except.ok.injEq, Prod.mk.injEq] at hok
        obtain ⟨hobs, _⟩ := hok
        have hCnow := Corr.mono t now s m h htn
        obtain ⟨ho, hC1⟩ := corr_step now s m op maxB o s₁ hCnow hsafe hstep
        simp only [runMem]
        rw [← hobs, ho]
        have := ih now s₁ (memStep m op now).2 maxB obs' sF' hC1 hmono'
          hdel' hrest
        rw [this]

/-- C3 (amended): on the fragment where the two providers are meant to
agree — sequences of `get` / `set` / `delete` / `getMany` / `setMany`
with nondecreasing timestamps, in which every `set` stays within the
SQLite quota and every `delete` targets a key the in-memory table does
not hold as an already-expired leftover — both providers, started empty,
return identical results for every operation.  (Outside this fragment
they differ: the in-memory provider enforces no quota, `delete` of an
expired-but-unswept key answers differently, and `list` diverges on
wildcards and letter case — see the counterexample and claim C6.) -/
theorem inmemory_matches_sqlite_on_agreeing_fragment
    (ops : List (StorageOp × Nat)) (maxB : Int) (obs : List Obs)
    (sF : List (String × SqlRow))
    (hmono : timesMonoB 0 ops = true)
    (hdel : deleteSafeB [] ops = true)
    (hok : runSql [] maxB ops = .ok (obs, sF)) :
    (runMem [] ops).1 = obs :=
  runs_agree_aux ops 0 [] [] maxB obs sF (corr_empty 0) hmono hdel hok

/-- Witness for `inmemory_matches_sqlite_on_agreeing_fragment` on a run
exercising all five operations, a TTL expiry between two reads, and a
safe delete. -/
theorem inmemory_matches_sqlite_witness :
    (runMem []
      [(.set "a" "7" (some 5), 0), (.get "a", 3), (.get "a", 10),
       (.set "b" "8" none, 10), (.getMany ["a", "b"], 11),
       (.delete "b", 12), (.setMany [("c", "9")], 12), (.get "c", 13)]).1
    = [.okSet, .val (some "7"), .val none, .okSet, .many [("b", "8")],
       .deleted true, .okSet, .val (some "9")] :=
  inmemory_matches_sqlite_on_agreeing_fragment
    [(.set "a" "7" (some 5), 0), (.get "a", 3), (.get "a", 10),
     (.set "b" "8" none, 10), (.getMany ["a", "b"], 11),
     (.delete "b", 12), (.setMany [("c", "9")], 12), (.get "c", 13)]
    100
    [.okSet, .val (some "7"), .val none, .okSet, .many [("b", "8")],
     .deleted true, .okSet, .val (some "9")]
    [("c", ⟨"9", 12, none⟩)]
    (by decide) (by decide) (by decide)

/-- C1 (amended): `findUnconstrainedStrings` reports exactly the paths of
the nodes reachable through `properties` (path `path.key`), `items`
(path `path[]`) and `$defs` (path `$defs.key`, discarding the incoming
path; the empty path is reported as `root`) whose `type` keyword is
*exactly* the string `"string"` — an array of types is never checked —
and which fail the code's constraint test: a present `enum` of any
length (even empty), a present truthy `const`, a present non-empty
`pattern`, or a `format` in `\x7bdate, date-time, time, email, uri, uuid,
id\x7d` (`url` not included). -/
theorem mem_findUnconstrainedStrings (s : JSchema) (p x : String) :
    x ∈ findUnconstrainedStrings s p ↔
      ∃ q t, Reach p s q t ∧ t.type? = some (.single "string")
        ∧ isConstrainedString t = false ∧ x = pathOrRoot q :=
  mem_fus_aux (sizeOf s) s (Nat.le_refl _) p x

end Trikhub
